import Mathlib

/-!
# Verification of the go-flux core (lexer / compiler / VM)

Shallow embedding of the go-flux scripting system: the value model
(`internal/vm/value.go`), the bytecode interpreter (`internal/vm`, the
dispatch loop `Run` and its helpers), the bytecode compiler
(`internal/compiler/compiler.go`) and the lexer
(`internal/lexer/lexer.go`), restricted to the constructs exercised by
the verified properties.

Modelling conventions:
* Go `float64` numbers are modelled as `ℚ`.  None of the verified
  properties depend on floating-point rounding, NaN or infinities.
* Go pointers into a frame's `locals` slice are modelled as pairs
  `(frame uid, slot index)`; every pushed frame receives a fresh uid
  from a monotone counter, mirroring the fact that each Go frame owns a
  freshly allocated locals slice.
* Go maps are modelled as association lists with replace-on-update,
  except where a property is about map iteration order, in which case a
  `String → Option _` function (the order-free denotation of a Go map)
  is used.
* Fallible Go functions return `Except String _`; the interpreter loop
  is driven by explicit fuel.
-/

namespace Flux

/-! ## Opcode values (internal/bytecode, `part_001`) -/

def OP_CONST : Nat := 0
def OP_NULL : Nat := 1
def OP_TRUE : Nat := 2
def OP_FALSE : Nat := 3
def OP_POP : Nat := 4
def OP_ADD : Nat := 8
def OP_SUB : Nat := 9
def OP_MUL : Nat := 10
def OP_DIV : Nat := 11
def OP_NEG : Nat := 12
def OP_NOT : Nat := 13
def OP_EQ : Nat := 16
def OP_NEQ : Nat := 17
def OP_LT : Nat := 18
def OP_LTE : Nat := 19
def OP_GT : Nat := 20
def OP_GTE : Nat := 21
def OP_AND : Nat := 22
def OP_OR : Nat := 23
def OP_GET_GLOBAL : Nat := 24
def OP_SET_GLOBAL : Nat := 25
def OP_DEFINE_GLOBAL : Nat := 26
def OP_GET_LOCAL : Nat := 32
def OP_SET_LOCAL : Nat := 33
def OP_GET_UPVALUE : Nat := 34
def OP_SET_UPVALUE : Nat := 35
def OP_ARRAY : Nat := 40
def OP_OBJECT : Nat := 41
def OP_RANGE : Nat := 42
def OP_INDEX_GET : Nat := 43
def OP_INDEX_SET : Nat := 44
def OP_GET_PROP : Nat := 45
def OP_SET_PROP : Nat := 46
def OP_JUMP : Nat := 48
def OP_JUMP_IF_FALSE : Nat := 49
def OP_JUMP_IF_TRUE : Nat := 50
def OP_CALL : Nat := 56
def OP_RETURN : Nat := 57
def OP_CLOSURE : Nat := 58
def OP_NOP : Nat := 64
def OP_DEBUG : Nat := 65
def OP_ITER_PREP : Nat := 72
def OP_ITER_NEXT : Nat := 73

/-! ## Constant pool / prototypes (internal/bytecode) -/

mutual

/-- A constant-pool entry (`Chunk.Consts` holds `interface{}` values:
`nil`, `bool`, `float64`, `string` or `*Prototype`). -/
inductive Const : Type where
  | cnil : Const
  | cbool (b : Bool) : Const
  | cnum (q : ℚ) : Const
  | cstr (s : String) : Const
  | cproto (p : Prototype) : Const

/-- `bytecode.Chunk`: code bytes, constant pool and sparse line table. -/
inductive Chunk : Type where
  | mk (code : List Nat) (consts : List Const) (lines : List (Nat × Nat)) : Chunk

/-- `bytecode.Prototype`. -/
inductive Prototype : Type where
  | mk (name source : String) (numParams : Nat) (chunk : Chunk)
      (upvalues : List (Bool × Nat)) (maxLocals : Nat) : Prototype

end

def Chunk.code : Chunk → List Nat
  | .mk c _ _ => c

def Chunk.consts : Chunk → List Const
  | .mk _ c _ => c

def Chunk.lines : Chunk → List (Nat × Nat)
  | .mk _ _ l => l

def Prototype.name : Prototype → String
  | .mk n _ _ _ _ _ => n

def Prototype.source : Prototype → String
  | .mk _ s _ _ _ _ => s

def Prototype.numParams : Prototype → Nat
  | .mk _ _ n _ _ _ => n

def Prototype.chunk : Prototype → Chunk
  | .mk _ _ _ c _ _ => c

def Prototype.upvalues : Prototype → List (Bool × Nat)
  | .mk _ _ _ _ u _ => u

def Prototype.maxLocals : Prototype → Nat
  | .mk _ _ _ _ _ m => m

/-! ## The value model (internal/vm/value.go) -/

/-- `vm.Function` (compiled part only; native handlers are host Go
closures and are outside the embedding — none of the verified programs
calls a native function).  `upvalues` holds references into the VM's
upvalue-cell heap; `none` models a nil `*upvalue` entry. -/
structure FuncVal : Type where
  proto : Option Prototype
  upvalues : List (Option Nat)
  name : String
  source : String

/-- `vm.Value`.  Object values (`map[string]Value`) are reference-backed
Go maps; they are modelled separately (see `GoMap` below) because no
verified bytecode program constructs one.  `viter` models the pointer
identity of a `*Iterator`. -/
inductive Value : Type where
  | vnull : Value
  | vbool (b : Bool) : Value
  | vnum (q : ℚ) : Value
  | vstr (s : String) : Value
  | varr (elems : List Value) : Value
  | vfunc (f : FuncVal) : Value
  | verr (msg : String) : Value
  | viter (id : Nat) : Value

/-- `vm.Truthy`: null and false are falsy, everything else truthy. -/
def Truthy : Value → Bool
  | .vnull => false
  | .vbool b => b
  | _ => true

/-- `vm.Equal`.  The source first rejects mismatched kinds, then
compares null/bool/number/string/error by content.  Its default branch
is `return &a == &b` where `a` and `b` are the two by-value parameters
of `Equal`: they are distinct Go variables, so their addresses are never
equal and the branch constantly yields `false` (for arrays, objects,
functions and iterators alike, even when both arguments are the very
same value). -/
def Equal : Value → Value → Bool
  | .vnull, .vnull => true
  | .vbool a, .vbool b => a == b
  | .vnum a, .vnum b => a == b
  | .vstr a, .vstr b => a == b
  | .verr a, .verr b => a == b
  | _, _ => false

/-- `vm.expectIndex`.  The Go code truncates the float to `int` and
requires `float64(i) == index.Num`, which holds exactly when the
rational is an integer (then `i` is its numerator); a negative `length`
skips the bounds check. -/
def expectIndex (index : Value) (length : Int) : Except String Int :=
  match index with
  | .vnum q =>
      if q.den = 1 then
        let i := q.num
        if 0 ≤ length ∧ (i < 0 ∨ length ≤ i) then .error "index out of bounds"
        else .ok i
      else .error "index must be integer"
  | _ => .error "index must be number"

/-- The body of `vm.buildRange`: `for i := start; ; i += step` appending
`i` and stopping after appending `end`.  The fuel is the exact number of
elements the Go loop produces, so the loop structure is preserved. -/
def buildRangeLoop : Nat → Int → Int → Int → List Value
  | 0, _, _, _ => []
  | fuel + 1, i, stop, stepv =>
      Value.vnum i ::
        (if i = stop then [] else buildRangeLoop fuel (i + stepv) stop stepv)

/-- `vm.buildRange`: inclusive range with step `+1`, or `-1` when the
end is below the start. -/
def buildRange (start stop : Int) : List Value :=
  let stepv : Int := if stop < start then -1 else 1
  buildRangeLoop (((stop - start) * stepv).toNat + 1) start stop stepv

/-- `vm.indexGet` (array branch; the object branch needs the
reference-backed map model and is not reached by any verified
program). -/
def indexGet (target index : Value) : Except String Value :=
  match target with
  | .varr arr =>
      match expectIndex index arr.length with
      | .error e => .error e
      | .ok i => .ok (arr.getD i.toNat Value.vnull)
  | _ => .error "not indexable"

/-- `vm.binaryOp`. -/
def binaryOp (op : Nat) (a b : Value) : Except String Value :=
  if op = OP_ADD ∨ op = OP_SUB ∨ op = OP_MUL ∨ op = OP_DIV then
    match a, b with
    | .vnum x, .vnum y =>
        if op = OP_ADD then .ok (.vnum (x + y))
        else if op = OP_SUB then .ok (.vnum (x - y))
        else if op = OP_MUL then .ok (.vnum (x * y))
        else .ok (.vnum (x / y))
    | _, _ => .error "operands must be numbers"
  else if op = OP_EQ then .ok (.vbool (Equal a b))
  else if op = OP_NEQ then .ok (.vbool (! Equal a b))
  else if op = OP_LT ∨ op = OP_LTE ∨ op = OP_GT ∨ op = OP_GTE then
    match a, b with
    | .vnum x, .vnum y =>
        if op = OP_LT then .ok (.vbool (decide (x < y)))
        else if op = OP_LTE then .ok (.vbool (decide (x ≤ y)))
        else if op = OP_GT then .ok (.vbool (decide (y < x)))
        else .ok (.vbool (decide (y ≤ x)))
    | _, _ => .error "operands must be numbers"
  else .error "unsupported op"

/-- `vm.constToValue`: materialize a constant-pool entry; prototype
constants become function values with a fresh table of nil upvalue
entries. -/
def constToValue : Const → Value
  | .cnil => .vnull
  | .cbool b => .vbool b
  | .cnum q => .vnum q
  | .cstr s => .vstr s
  | .cproto p =>
      .vfunc { proto := some p, name := p.name, source := p.source,
               upvalues := List.replicate p.upvalues.length none }

/-! ## Interpreter state (internal/vm, `part_006` / `part_007`) -/

/-- `vm.FrameInfo`: diagnostic context attached to runtime errors. -/
structure FrameInfo : Type where
  function : String
  source : String
  line : Nat
  ip : Int
deriving DecidableEq

/-- `vm.RuntimeError` (the per-frame stack trace it also carries plays
no role in the verified properties). -/
structure RtErr : Type where
  message : String
  frame : FrameInfo
deriving DecidableEq

/-- `vm.upvalue` (`part_007`): open cells hold a stable reference to a
live frame's local slot, modelled as `(frame uid, slot)`; closing
replaces the reference with an inline copy of the value.  The Go zero
value of the `closed` field is the null value. -/
structure Upvalue : Type where
  location : Option (Nat × Nat)
  closed : Value

/-- A call frame.  `uid` models the identity of the frame's freshly
allocated `locals` slice (pointers `&fr.locals[slot]` become
`(fr.uid, slot)`). -/
structure Frame : Type where
  fn : FuncVal
  ip : Nat
  locals : List Value
  base : Nat
  lastOp : Int
  uid : Nat

/-- The interpreter.  `frames` is stored newest-first (Go stores them
oldest-first and always addresses the last); `cells` is the heap of
upvalue cells, addressed by index, and `openUpvalues` mirrors
`vm.openUpvalues` as a list of cell indices. -/
structure VMState : Type where
  stack : List Value
  frames : List Frame
  globals : List (String × Value)
  openUpvalues : List Nat
  cells : List Upvalue
  nextUid : Nat
  maxFrames : Nat
  instLimit : Nat
  instCount : Nat

/-- `vm.New` (globals start empty; `defaultMaxFrames = 256`). -/
def vmNew : VMState :=
  { stack := [], frames := [], globals := [], openUpvalues := [],
    cells := [], nextUid := 0, maxFrames := 256, instLimit := 0,
    instCount := 0 }

/-- `vm.pop`: popping an empty stack yields null. -/
def popV (st : List Value) : Value × List Value :=
  (st.getLastD Value.vnull, st.dropLast)

/-- The pop loop of `OP_CALL` / `OP_ARRAY`: pop `n` values, the first
popped landing at the end of the result (Go fills indices `n-1 … 0`). -/
def popN : Nat → List Value → List Value × List Value
  | 0, st => ([], st)
  | n + 1, st =>
      let (v, st2) := popV st
      let (els, st3) := popN n st2
      (els ++ [v], st3)

/-- Go map read (`vm.globals[name]`). -/
def globalsGet (g : List (String × Value)) (name : String) : Option Value :=
  match g with
  | [] => none
  | (k, v) :: rest => if k = name then some v else globalsGet rest name

/-- Go map write (`vm.globals[name] = v`). -/
def globalsSet (g : List (String × Value)) (name : String) (v : Value) :
    List (String × Value) :=
  match g with
  | [] => [(name, v)]
  | (k, w) :: rest =>
      if k = name then (k, v) :: rest else (k, w) :: globalsSet rest name v

def cellAt (cells : List Upvalue) (id : Nat) : Option Upvalue :=
  cells[id]?

/-- Dereference a modelled locals pointer. -/
def framesRead (frames : List Frame) (uid slot : Nat) : Value :=
  match frames with
  | [] => Value.vnull
  | fr :: rest =>
      if fr.uid = uid then fr.locals.getD slot Value.vnull
      else framesRead rest uid slot

/-- Write through a modelled locals pointer. -/
def framesWrite (frames : List Frame) (uid slot : Nat) (v : Value) :
    List Frame :=
  match frames with
  | [] => []
  | fr :: rest =>
      if fr.uid = uid then { fr with locals := fr.locals.set slot v } :: rest
      else fr :: framesWrite rest uid slot v

/-- `upvalue.get`: a nil entry yields null; open cells read through the
location, closed cells return the stored copy. -/
def uvGet (s : VMState) (entry : Option Nat) : Value :=
  match entry with
  | none => Value.vnull
  | some id =>
      match cellAt s.cells id with
      | none => Value.vnull
      | some u =>
          match u.location with
          | some loc => framesRead s.frames loc.1 loc.2
          | none => u.closed

/-- `upvalue.set`. -/
def uvSet (s : VMState) (entry : Option Nat) (v : Value) : VMState :=
  match entry with
  | none => s
  | some id =>
      match cellAt s.cells id with
      | none => s
      | some u =>
          match u.location with
          | some loc =>
              { s with frames := framesWrite s.frames loc.1 loc.2 v }
          | none =>
              { s with cells := s.cells.set id { u with closed := v } }

/-- `upvalue.close`: copy the referenced value inline and drop the
location (a no-op on an already closed cell). -/
def closeCell (u : Upvalue) (frames : List Frame) : Upvalue :=
  match u.location with
  | some loc => { location := none, closed := framesRead frames loc.1 loc.2 }
  | none => u

/-- `vm.captureUpvalue`: scan the open list for a cell already
referencing the same slot; reuse it, otherwise allocate a fresh open
cell and append it to the open list. -/
def findOpen (cells : List Upvalue) (ids : List Nat) (loc : Nat × Nat) :
    Option Nat :=
  match ids with
  | [] => none
  | id :: rest =>
      match cellAt cells id with
      | some u => if u.location = some loc then some id else findOpen cells rest loc
      | none => findOpen cells rest loc

def captureUpvalue (s : VMState) (loc : Nat × Nat) : Nat × VMState :=
  match findOpen s.cells s.openUpvalues loc with
  | some id => (id, s)
  | none =>
      let id := s.cells.length
      (id, { s with cells := s.cells ++ [⟨some loc, Value.vnull⟩],
                    openUpvalues := s.openUpvalues ++ [id] })

/-- The filter test of `vm.closeUpvalues`: cell `id` is open and its
location lies in the departing frame's locals. -/
def ownedBy (cells : List Upvalue) (uid nLocals id : Nat) : Bool :=
  match cellAt cells id with
  | some u =>
      match u.location with
      | some loc => loc.1 == uid && decide (loc.2 < nLocals)
      | none => false
  | none => false

/-- The filter loop of `vm.closeUpvalues`: cells whose location lies in
the departing frame's locals (`containsSlot`) are closed and dropped
from the open list, the rest are kept in order. -/
def closeLoop (ids : List Nat) (cells : List Upvalue) (frames : List Frame)
    (uid nLocals : Nat) : List Nat × List Upvalue :=
  match ids with
  | [] => ([], cells)
  | id :: rest =>
      let owned := ownedBy cells uid nLocals id
      if owned then
        let cells2 :=
          match cellAt cells id with
          | some u => cells.set id (closeCell u frames)
          | none => cells
        closeLoop rest cells2 frames uid nLocals
      else
        let (kept, cells2) := closeLoop rest cells frames uid nLocals
        (id :: kept, cells2)

/-- `vm.closeUpvalues` for the frame identified by `uid` whose locals
array has length `nLocals` (Go returns immediately on empty locals). -/
def closeUpvalues (s : VMState) (uid nLocals : Nat) : VMState :=
  if nLocals = 0 then s
  else
    let r := closeLoop s.openUpvalues s.cells s.frames uid nLocals
    { s with openUpvalues := r.1, cells := r.2 }

/-- `Function.maxLocals`. -/
def maxLocals (f : FuncVal) : Nat :=
  match f.proto with
  | none => 0
  | some p => if p.maxLocals > 0 then p.maxLocals else p.numParams

/-- Argument copying at frame entry: `for i < len(args) && i < len(locals):
locals[i] = args[i]` (extra arguments dropped, missing ones stay null). -/
def copyArgs (locals args : List Value) : List Value :=
  let k := min args.length locals.length
  args.take k ++ locals.drop k

/-- `vm.pushFrame`. -/
def pushFrame (s : VMState) (f : FuncVal) : Except String (VMState) :=
  match f.proto with
  | none => .error "invalid function"
  | some _ =>
      if s.frames.length ≥ s.maxFrames then .error "call stack overflow"
      else
        .ok { s with
                frames := { fn := f, ip := 0,
                            locals := List.replicate (maxLocals f) Value.vnull,
                            base := s.stack.length, lastOp := -1,
                            uid := s.nextUid } :: s.frames,
                nextUid := s.nextUid + 1 }

/-! ## Error construction (`vm/errors`, `part_007`) -/

/-- `vm.lineForOffset`: the line in force at an offset is the line of
the last table entry at or before it. -/
def lineForOffset (lines : List (Nat × Nat)) (offset : Int) : Nat :=
  if offset < 0 then 0 else lineLoop lines 0 offset
where
  lineLoop : List (Nat × Nat) → Nat → Int → Nat
    | [], acc, _ => acc
    | (off, ln) :: rest, acc, o =>
        if o < (off : Int) then acc else lineLoop rest ln o

/-- `vm.offsetForFrame`. -/
def offsetForFrame (fr : Frame) : Int :=
  if 0 ≤ fr.lastOp then fr.lastOp else (fr.ip : Int)

/-- `vm.frameInfo`. -/
def frameInfo (fr : Frame) (offset : Int) : FrameInfo :=
  let src := if fr.fn.source = "" then
      (match fr.fn.proto with
       | some p => p.source
       | none => "")
    else fr.fn.source
  let line := match fr.fn.proto with
    | some p => lineForOffset p.chunk.lines offset
    | none => 0
  { function := fr.fn.name, source := src, line := line, ip := offset }

/-- `vm.errorf` / `vm.newRuntimeError` restricted to the primary frame. -/
def mkErr (fr : Frame) (msg : String) : RtErr :=
  { message := msg, frame := frameInfo fr (offsetForFrame fr) }

/-- An error raised with no frame context (`vm.errorf(nil, …)`). -/
def mkErrNoFrame (msg : String) : RtErr :=
  { message := msg, frame := { function := "", source := "", line := 0, ip := -1 } }

/-! ## The dispatch loop (`vm.Run`, `part_006`) -/

/-- Result of one trip around the dispatch loop: continue, return the
final value to the caller, or raise a runtime error (the Go interpreter
returns immediately and leaves its state as-is, which the carried state
records). -/
inductive Outcome : Type where
  | ok (s : VMState) : Outcome
  | done (v : Value) (s : VMState) : Outcome
  | fail (e : RtErr) (s : VMState) : Outcome

def byteAt (code : List Nat) (i : Nat) : Nat := code.getD i 0

/-- `vm.readU16`: big-endian, high byte first. -/
def u16At (code : List Nat) (i : Nat) : Nat :=
  byteAt code i * 256 + byteAt code (i + 1)

/-- `vm.finishFrame`: close the departing frame's upvalues, pop it,
truncate the stack to its base, and either deliver the return value
(outermost frame) or push it for the caller. -/
def finishFrame (s : VMState) (ret : Value) : Outcome :=
  match s.frames with
  | [] => .done ret s
  | fr :: rest =>
      let s1 := closeUpvalues s fr.uid fr.locals.length
      let s2 := { s1 with frames := rest, stack := s1.stack.take fr.base }
      match rest with
      | [] => .done ret s2
      | _ :: _ => .ok { s2 with stack := s2.stack ++ [ret] }

/-- The upvalue-descriptor loop of `OP_CLOSURE`. -/
inductive UpsResult : Type where
  | ok (ups : List (Option Nat)) (s : VMState) (ip : Nat) : UpsResult
  | err (msg : String) (s : VMState) (ip : Nat) : UpsResult

def closureUps (code : List Nat) (n : Nat) (fr : Frame) (s : VMState)
    (acc : List (Option Nat)) (ip : Nat) : UpsResult :=
  match n with
  | 0 => .ok acc s ip
  | m + 1 =>
      let isLocal := byteAt code ip
      let slot := byteAt code (ip + 1)
      let ip2 := ip + 2
      if isLocal = 1 then
        if fr.locals.length ≤ slot then
          .err "upvalue local slot out of range" s ip2
        else
          let r := captureUpvalue s (fr.uid, slot)
          closureUps code m fr r.2 (acc ++ [some r.1]) ip2
      else
        if fr.fn.upvalues.length ≤ slot then
          .err "upvalue index out of range" s ip2
        else
          closureUps code m fr s (acc ++ [fr.fn.upvalues.getD slot none]) ip2

/-- Overwrite the just-pushed frame's locals with the call arguments
(`OP_CALL` after `pushFrame`). -/
def setHeadLocals (s : VMState) (args : List Value) : VMState :=
  match s.frames with
  | [] => s
  | nf :: r => { s with frames := { nf with locals := copyArgs nf.locals args } :: r }

/-- The `OP_SET_GLOBAL` case of the dispatch switch: read the name
constant and unconditionally bind the popped value in the global
table. -/
def opSetGlobal (proto : Prototype) (fr : Frame) (rest : List Frame)
    (s : VMState) : Outcome :=
  let idx := u16At proto.chunk.code fr.ip
  let fr2 := { fr with ip := fr.ip + 2 }
  match proto.chunk.consts.getD idx .cnil with
  | .cstr name =>
      let p := popV s.stack
      .ok { s with frames := fr2 :: rest, stack := p.2,
                   globals := globalsSet s.globals name p.1 }
  | _ =>
      .fail (mkErr fr2 "global name constant is not string")
        { s with frames := fr2 :: rest }

/-- The `OP_DEFINE_GLOBAL` case of the dispatch switch (its body in the
Go source is byte-for-byte the same as the `OP_SET_GLOBAL` case). -/
def opDefineGlobal (proto : Prototype) (fr : Frame) (rest : List Frame)
    (s : VMState) : Outcome :=
  let idx := u16At proto.chunk.code fr.ip
  let fr2 := { fr with ip := fr.ip + 2 }
  match proto.chunk.consts.getD idx .cnil with
  | .cstr name =>
      let p := popV s.stack
      .ok { s with frames := fr2 :: rest, stack := p.2,
                   globals := globalsSet s.globals name p.1 }
  | _ =>
      .fail (mkErr fr2 "global name constant is not string")
        { s with frames := fr2 :: rest }

/-- The dispatch switch of `vm.Run`.  `fr` is the current frame with
`ip` already advanced past the opcode byte and `s.frames = fr :: rest`.
Builtin opcodes (0x80–0x9F) are host-registered and outside the
embedding, so they fall to the unknown-opcode branch, which no verified
program reaches. -/
def execOp (op : Nat) (proto : Prototype) (fr : Frame) (rest : List Frame)
    (s : VMState) : Outcome :=
  let code := proto.chunk.code
  if op = OP_NOP ∨ op = OP_DEBUG then .ok s
  else if op = OP_CONST then
    let idx := u16At code fr.ip
    let fr2 := { fr with ip := fr.ip + 2 }
    .ok { s with frames := fr2 :: rest,
                 stack := s.stack ++ [constToValue (proto.chunk.consts.getD idx .cnil)] }
  else if op = OP_NULL then .ok { s with stack := s.stack ++ [Value.vnull] }
  else if op = OP_TRUE then .ok { s with stack := s.stack ++ [Value.vbool true] }
  else if op = OP_FALSE then .ok { s with stack := s.stack ++ [Value.vbool false] }
  else if op = OP_POP then .ok { s with stack := s.stack.dropLast }
  else if op = OP_ADD ∨ op = OP_SUB ∨ op = OP_MUL ∨ op = OP_DIV ∨
          op = OP_EQ ∨ op = OP_NEQ ∨ op = OP_LT ∨ op = OP_LTE ∨
          op = OP_GT ∨ op = OP_GTE then
    let pb := popV s.stack
    let pa := popV pb.2
    match binaryOp op pa.1 pb.1 with
    | .error m => .fail (mkErr fr m) { s with stack := pa.2 }
    | .ok res => .ok { s with stack := pa.2 ++ [res] }
  else if op = OP_NEG then
    let p := popV s.stack
    match p.1 with
    | .vnum q => .ok { s with stack := p.2 ++ [Value.vnum (-q)] }
    | _ => .fail (mkErr fr "operand must be number") { s with stack := p.2 }
  else if op = OP_NOT then
    let p := popV s.stack
    .ok { s with stack := p.2 ++ [Value.vbool (! Truthy p.1)] }
  else if op = OP_AND then
    let pb := popV s.stack
    let pa := popV pb.2
    .ok { s with stack := pa.2 ++ [Value.vbool (Truthy pa.1 && Truthy pb.1)] }
  else if op = OP_OR then
    let pb := popV s.stack
    let pa := popV pb.2
    .ok { s with stack := pa.2 ++ [Value.vbool (Truthy pa.1 || Truthy pb.1)] }
  else if op = OP_GET_LOCAL then
    let slot := byteAt code fr.ip
    let fr2 := { fr with ip := fr.ip + 1 }
    if fr.locals.length ≤ slot then
      .fail (mkErr fr2 "local slot out of range") { s with frames := fr2 :: rest }
    else
      .ok { s with frames := fr2 :: rest,
                   stack := s.stack ++ [fr.locals.getD slot Value.vnull] }
  else if op = OP_SET_LOCAL then
    let slot := byteAt code fr.ip
    let fr2 := { fr with ip := fr.ip + 1 }
    if fr.locals.length ≤ slot then
      .fail (mkErr fr2 "local slot out of range") { s with frames := fr2 :: rest }
    else
      let p := popV s.stack
      .ok { s with frames := { fr2 with locals := fr2.locals.set slot p.1 } :: rest,
                   stack := p.2 }
  else if op = OP_GET_UPVALUE then
    let slot := byteAt code fr.ip
    let fr2 := { fr with ip := fr.ip + 1 }
    if fr.fn.upvalues.length ≤ slot then
      .fail (mkErr fr2 "upvalue slot out of range") { s with frames := fr2 :: rest }
    else
      let s2 := { s with frames := fr2 :: rest }
      .ok { s2 with stack := s2.stack ++ [uvGet s2 (fr.fn.upvalues.getD slot none)] }
  else if op = OP_SET_UPVALUE then
    let slot := byteAt code fr.ip
    let fr2 := { fr with ip := fr.ip + 1 }
    if fr.fn.upvalues.length ≤ slot then
      .fail (mkErr fr2 "upvalue slot out of range") { s with frames := fr2 :: rest }
    else
      let p := popV s.stack
      .ok (uvSet { s with frames := fr2 :: rest, stack := p.2 }
             (fr.fn.upvalues.getD slot none) p.1)
  else if op = OP_GET_GLOBAL then
    let idx := u16At code fr.ip
    let fr2 := { fr with ip := fr.ip + 2 }
    match proto.chunk.consts.getD idx .cnil with
    | .cstr name =>
        match globalsGet s.globals name with
        | none =>
            .fail (mkErr fr2 s!"global {name} not found") { s with frames := fr2 :: rest }
        | some v =>
            .ok { s with frames := fr2 :: rest, stack := s.stack ++ [v] }
    | _ =>
        .fail (mkErr fr2 "global name constant is not string")
          { s with frames := fr2 :: rest }
  else if op = OP_SET_GLOBAL then opSetGlobal proto fr rest s
  else if op = OP_DEFINE_GLOBAL then opDefineGlobal proto fr rest s
  else if op = OP_ARRAY then
    let count := u16At code fr.ip
    let fr2 := { fr with ip := fr.ip + 2 }
    let p := popN count s.stack
    .ok { s with frames := fr2 :: rest, stack := p.2 ++ [Value.varr p.1] }
  else if op = OP_RANGE then
    let pe := popV s.stack
    let ps := popV pe.2
    match expectIndex ps.1 (-1) with
    | .error m => .fail (mkErr fr m) { s with stack := ps.2 }
    | .ok i =>
        match expectIndex pe.1 (-1) with
        | .error m => .fail (mkErr fr m) { s with stack := ps.2 }
        | .ok j => .ok { s with stack := ps.2 ++ [Value.varr (buildRange i j)] }
  else if op = OP_INDEX_GET then
    let pi := popV s.stack
    let pt := popV pi.2
    match indexGet pt.1 pi.1 with
    | .error m => .fail (mkErr fr m) { s with stack := pt.2 }
    | .ok v => .ok { s with stack := pt.2 ++ [v] }
  else if op = OP_JUMP then
    let off := u16At code fr.ip
    .ok { s with frames := { fr with ip := off } :: rest }
  else if op = OP_JUMP_IF_FALSE then
    let off := u16At code fr.ip
    let fr2 := { fr with ip := fr.ip + 2 }
    let p := popV s.stack
    let fr3 := if Truthy p.1 then fr2 else { fr2 with ip := off }
    .ok { s with frames := fr3 :: rest, stack := p.2 }
  else if op = OP_JUMP_IF_TRUE then
    let off := u16At code fr.ip
    let fr2 := { fr with ip := fr.ip + 2 }
    let p := popV s.stack
    let fr3 := if Truthy p.1 then { fr2 with ip := off } else fr2
    .ok { s with frames := fr3 :: rest, stack := p.2 }
  else if op = OP_CALL then
    let argc := byteAt code fr.ip
    let fr2 := { fr with ip := fr.ip + 1 }
    if s.stack.length < argc + 1 then
      .fail (mkErr fr2 s!"stack underflow on call: argc={argc} stack={s.stack.length}")
        { s with frames := fr2 :: rest }
    else
      let pargs := popN argc s.stack
      let pc := popV pargs.2
      match pc.1 with
      | .vfunc f =>
          match pushFrame { s with frames := fr2 :: rest, stack := pc.2 } f with
          | .error m =>
              .fail (mkErr fr2 m) { s with frames := fr2 :: rest, stack := pc.2 }
          | .ok s2 => .ok (setHeadLocals s2 pargs.1)
      | _ =>
          .fail (mkErr fr2 "not a function") { s with frames := fr2 :: rest, stack := pc.2 }
  else if op = OP_RETURN then
    if fr.base < s.stack.length then
      let p := popV s.stack
      finishFrame { s with stack := p.2 } p.1
    else
      finishFrame s Value.vnull
  else if op = OP_CLOSURE then
    let idx := u16At code fr.ip
    let upcount := byteAt code (fr.ip + 2)
    let fr2 := { fr with ip := fr.ip + 3 }
    match proto.chunk.consts.getD idx .cnil with
    | .cproto p =>
        match closureUps code upcount fr2 { s with frames := fr2 :: rest } [] fr2.ip with
        | .err m s2 ip2 =>
            let fr3 := { fr2 with ip := ip2 }
            .fail (mkErr fr3 m) { s2 with frames := fr3 :: rest }
        | .ok ups s2 ip2 =>
            let fr3 := { fr2 with ip := ip2 }
            .ok { s2 with frames := fr3 :: rest,
                          stack := s2.stack ++
                            [Value.vfunc { proto := some p, name := p.name,
                                           source := p.source, upvalues := ups }] }
    | _ =>
        .fail (mkErr fr2 "closure constant is not prototype")
          { s with frames := fr2 :: rest }
  else
    .fail (mkErr fr s!"unknown opcode {op}") s

/-- One trip of the dispatch loop: record `lastOp`, handle running off
the end of the code (behaves as `NULL; RETURN`), fetch the opcode,
count the instruction, enforce the limit, then dispatch. -/
def step (s : VMState) : Outcome :=
  match s.frames with
  | [] => .done Value.vnull s
  | fr0 :: rest =>
      let fr1 := { fr0 with lastOp := (fr0.ip : Int) }
      match fr1.fn.proto with
      | none =>
          .fail (mkErr fr1 "function missing prototype") { s with frames := fr1 :: rest }
      | some proto =>
          let code := proto.chunk.code
          if code.length ≤ fr1.ip then
            finishFrame { s with frames := fr1 :: rest } Value.vnull
          else
            let op := byteAt code fr1.ip
            let fr2 := { fr1 with ip := fr1.ip + 1 }
            let s2 := { s with frames := fr2 :: rest, instCount := s.instCount + 1 }
            if 0 < s2.instLimit ∧ s2.instLimit < s2.instCount then
              .fail (mkErr fr2 "instruction limit exceeded") s2
            else
              execOp op proto fr2 rest s2

/-- Result of a complete `Run` invocation.  `timeout` is the artifact of
the fuel-based embedding: the Go loop would still be running. -/
inductive RunResult : Type where
  | value (v : Value) (s : VMState) : RunResult
  | error (e : RtErr) (s : VMState) : RunResult
  | timeout (s : VMState) : RunResult

def runLoop : Nat → VMState → RunResult
  | 0, s => .timeout s
  | fuel + 1, s =>
      if s.frames.isEmpty then .value Value.vnull s
      else
        match step s with
        | .ok s2 => runLoop fuel s2
        | .done v s2 => .value v s2
        | .fail e s2 => .error e s2

/-- `vm.Run`: reset transient state, push the entry frame, copy the
arguments into its locals, and drive the dispatch loop. -/
def vmRun (s0 : VMState) (f : FuncVal) (args : List Value) (fuel : Nat) :
    RunResult :=
  let s := { s0 with stack := [], frames := [], openUpvalues := [],
                     instCount := 0 }
  match pushFrame s f with
  | .error m => .error (mkErrNoFrame m) s
  | .ok s1 => runLoop fuel (setHeadLocals s1 args)

/-- `vm.Call`: look up a global function by name and run it. -/
def vmCall (s0 : VMState) (name : String) (args : List Value) (fuel : Nat) :
    RunResult :=
  match globalsGet s0.globals name with
  | none => .error (mkErrNoFrame s!"global {name} not found") s0
  | some v =>
      match v with
      | .vfunc f => vmRun s0 f args fuel
      | _ => .error (mkErrNoFrame "not a function") s0

/-- `vm.LoadModule`: register compiled prototypes as global function
values with fresh nil-filled upvalue tables. -/
def loadModule (s : VMState) (functions : List (String × Prototype)) : VMState :=
  match functions with
  | [] => s
  | (name, proto) :: rest =>
      let fv : Value :=
        .vfunc { proto := some proto, name := name, source := proto.source,
                 upvalues := List.replicate proto.upvalues.length none }
      loadModule { s with globals := globalsSet s.globals name fv } rest

/-! ## The compiler (internal/compiler/compiler.go)

The embedded AST covers the statement and expression forms the verified
programs use (number/string/bool/null literals, arrays, ranges,
variables, binary operators including the logical ones, assignment,
indexing; expression/return/while statements; top-level function
declarations).  Each compiler case below is translated from the
corresponding case of `compileBlock` / `compileExpr` /
`compileLogical` / `compileAssign`; the verified programs contain only
top-level functions, whose scopes have no enclosing scope, so
`resolveUpvalue` answers false throughout (its walk starts with
`s.enclosing == nil`). -/

/-- The token operators the compiler dispatches on (`token.Type`). -/
inductive TokOp : Type where
  | plus | minus | star | slash
  | eq | neq | lt | lte | gt | gte
  | andand | oror
  | assign | define
deriving DecidableEq

inductive Expr : Type where
  | num (value : String) (line : Nat) : Expr
  | str (value : String) (line : Nat) : Expr
  | bool (value : Bool) (line : Nat) : Expr
  | nullLit (line : Nat) : Expr
  | arr (elements : List Expr) (line : Nat) : Expr
  | range (start stop : Expr) (line : Nat) : Expr
  | variable (name : String) (line : Nat) : Expr
  | binary (left : Expr) (op : TokOp) (right : Expr) (line : Nat) : Expr
  | assign (left : Expr) (value : Expr) (op : TokOp) (line : Nat) : Expr
  | index (left : Expr) (idx : Expr) (line : Nat) : Expr

inductive Stmt : Type where
  | exprStmt (e : Expr) (line : Nat) : Stmt
  | returnStmt (value : Option Expr) (line : Nat) : Stmt
  | whileStmt (cond : Expr) (body : List Stmt) (line : Nat) : Stmt

def Stmt.line : Stmt → Nat
  | .exprStmt _ l => l
  | .returnStmt _ l => l
  | .whileStmt _ _ l => l

/-- A top-level statement of a program: `Compile` type-switches on
`*ast.FuncDecl` and rejects everything else. -/
inductive TopStmt : Type where
  | funcDecl (name : String) (params : List String) (body : List Stmt)
      (line : Nat) : TopStmt
  | otherStmt : TopStmt

/-- `compiler.funcCompiler` together with its `scope` (locals map, next
free slot, upvalue table; no enclosing scope at top level). -/
structure FuncCompiler : Type where
  code : List Nat
  consts : List Const
  lines : List (Nat × Nat)
  locals : List (String × Nat)
  nextLoc : Nat
  upvalues : List (Bool × Nat)
  line : Nat
  source : String

def newFuncCompiler (source : String) : FuncCompiler :=
  { code := [], consts := [], lines := [], locals := [], nextLoc := 0,
    upvalues := [], line := 0, source := source }

def setLine (fc : FuncCompiler) (l : Nat) : FuncCompiler :=
  if 0 < l then { fc with line := l } else fc

/-- `recordLine`: append a `(offset, line)` entry unless the last entry
is already at this offset. -/
def recordLine (fc : FuncCompiler) : FuncCompiler :=
  if fc.line = 0 then fc
  else
    let off := fc.code.length
    match fc.lines.getLast? with
    | some last => if last.1 = off then fc else { fc with lines := fc.lines ++ [(off, fc.line)] }
    | none => { fc with lines := fc.lines ++ [(off, fc.line)] }

def emitByte (fc : FuncCompiler) (b : Nat) : FuncCompiler :=
  let fc := recordLine fc
  { fc with code := fc.code ++ [b % 256] }

def emitBytes (fc : FuncCompiler) (bs : List Nat) : FuncCompiler :=
  let fc := recordLine fc
  { fc with code := fc.code ++ bs.map (· % 256) }

def addConst (fc : FuncCompiler) (c : Const) : Nat × FuncCompiler :=
  (fc.consts.length, { fc with consts := fc.consts ++ [c] })

def emitConst (fc : FuncCompiler) (c : Const) : FuncCompiler :=
  let r := addConst fc c
  emitBytes r.2 [OP_CONST, r.1 / 256, r.1]

/-- `emitJump`: opcode plus a 2-byte placeholder; returns the position
of the placeholder. -/
def emitJump (fc : FuncCompiler) (op : Nat) : Nat × FuncCompiler :=
  let fc := emitByte fc op
  let fc := emitByte fc 255
  let fc := emitByte fc 255
  (fc.code.length - 2, fc)

/-- `patchJump`: write the current end-of-code offset (absolute,
big-endian) into the placeholder. -/
def patchJump (fc : FuncCompiler) (pos : Nat) : FuncCompiler :=
  let offset := fc.code.length
  { fc with code := (fc.code.set pos (offset / 256 % 256)).set (pos + 1) (offset % 256) }

/-- `emitLoop`: an absolute backward jump. -/
def emitLoop (fc : FuncCompiler) (start : Nat) : FuncCompiler :=
  let fc := emitByte fc OP_JUMP
  let fc := emitByte fc (start / 256)
  emitByte fc start

def lastOp (fc : FuncCompiler) : Nat :=
  fc.code.getLastD 0

def mapGet {α : Type} (g : List (String × α)) (name : String) : Option α :=
  match g with
  | [] => none
  | (k, v) :: rest => if k = name then some v else mapGet rest name

def mapSet {α : Type} (g : List (String × α)) (name : String) (v : α) :
    List (String × α) :=
  match g with
  | [] => [(name, v)]
  | (k, w) :: rest =>
      if k = name then (k, v) :: rest else (k, w) :: mapSet rest name v

/-- `scope.resolveLocal`. -/
def resolveLocal (fc : FuncCompiler) (name : String) : Option Nat :=
  mapGet fc.locals name

/-- `scope.addLocal`. -/
def addLocal (fc : FuncCompiler) (name : String) : Nat × FuncCompiler :=
  (fc.nextLoc, { fc with locals := mapSet fc.locals name fc.nextLoc,
                         nextLoc := fc.nextLoc + 1 })

/-- `funcCompiler.ensureLocal`. -/
def ensureLocal (fc : FuncCompiler) (name : String) : Nat × FuncCompiler :=
  match resolveLocal fc name with
  | some slot => (slot, fc)
  | none => addLocal fc name

def emitGlobalGet (fc : FuncCompiler) (name : String) : FuncCompiler :=
  let r := addConst fc (.cstr name)
  emitBytes r.2 [OP_GET_GLOBAL, r.1 / 256, r.1]

/-- `emitGlobalSet`: `DEFINE_GLOBAL` for `:=`, `SET_GLOBAL` for `=`,
with the name as a string constant. -/
def emitGlobalSet (fc : FuncCompiler) (name : String) (defineFlag : Bool) :
    FuncCompiler :=
  let r := addConst fc (.cstr name)
  if defineFlag then emitBytes r.2 [OP_DEFINE_GLOBAL, r.1 / 256, r.1]
  else emitBytes r.2 [OP_SET_GLOBAL, r.1 / 256, r.1]

/-- Modelled from the Go standard library `strconv.ParseFloat`,
restricted to the decimal literal forms the go-flux lexer produces
(digits optionally followed by a point and digits). -/
def parseDigits (cs : List Char) : Option Nat :=
  if cs.isEmpty then none
  else cs.foldlM (fun acc c => if c.isDigit then some (acc * 10 + (c.toNat - 48)) else none) 0

/-- Split a character list at the decimal points. -/
def splitOnDot (cs : List Char) : List (List Char) :=
  match cs with
  | [] => [[]]
  | c :: rest =>
      let r := splitOnDot rest
      if c = '.' then [] :: r
      else
        match r with
        | [] => [[c]]
        | g :: gs => (c :: g) :: gs

def parseNumber (s : String) : Option ℚ :=
  match splitOnDot s.toList with
  | [ds] => (parseDigits ds).map (fun n => (n : ℚ))
  | [ds, fs] =>
      match parseDigits ds, parseDigits fs with
      | some a, some b =>
          -- a.b…  =  (a·10^k + b) / 10^k  with k fraction digits
          some (Rat.normalize ((a : Int) * 10 ^ fs.length + (b : Int))
            (10 ^ fs.length) (pow_ne_zero _ (by norm_num)))
      | _, _ => none
  | _ => none

mutual

/-- `funcCompiler.compileExpr`.  The bodies of `compileLogical` (for
`&&` and `||`) and `compileAssign` are inlined at their call sites. -/
def compileExpr (fc : FuncCompiler) (e : Expr) : Except String FuncCompiler :=
  match e with
  | .num v line =>
      let fc := setLine fc line
      match parseNumber v with
      | none => .error s!"invalid number {v}"
      | some q => .ok (emitConst fc (.cnum q))
  | .str v line => .ok (emitConst (setLine fc line) (.cstr v))
  | .bool v line =>
      let fc := setLine fc line
      .ok (if v then emitByte fc OP_TRUE else emitByte fc OP_FALSE)
  | .nullLit line => .ok (emitByte (setLine fc line) OP_NULL)
  | .arr els line => do
      let fc := setLine fc line
      let fc ← compileExprList fc els
      .ok (emitBytes fc [OP_ARRAY, els.length / 256, els.length])
  | .range start stop line => do
      let fc := setLine fc line
      let fc ← compileExpr fc start
      let fc ← compileExpr fc stop
      .ok (emitByte fc OP_RANGE)
  | .variable name line =>
      let fc := setLine fc line
      match resolveLocal fc name with
      | some slot => .ok (emitBytes fc [OP_GET_LOCAL, slot])
      | none => .ok (emitGlobalGet fc name)
  | .binary l op r line =>
      let fc := setLine fc line
      if op = .andand then do
        let fc ← compileExpr fc l
        let j := emitJump fc OP_JUMP_IF_FALSE
        let fc := emitByte j.2 OP_POP
        let fc ← compileExpr fc r
        .ok (patchJump fc j.1)
      else if op = .oror then do
        let fc ← compileExpr fc l
        let j := emitJump fc OP_JUMP_IF_TRUE
        let fc := emitByte j.2 OP_POP
        let fc ← compileExpr fc r
        .ok (patchJump fc j.1)
      else do
        let fc ← compileExpr fc l
        let fc ← compileExpr fc r
        match op with
        | .plus => .ok (emitByte fc OP_ADD)
        | .minus => .ok (emitByte fc OP_SUB)
        | .star => .ok (emitByte fc OP_MUL)
        | .slash => .ok (emitByte fc OP_DIV)
        | .eq => .ok (emitByte fc OP_EQ)
        | .neq => .ok (emitByte fc OP_NEQ)
        | .lt => .ok (emitByte fc OP_LT)
        | .lte => .ok (emitByte fc OP_LTE)
        | .gt => .ok (emitByte fc OP_GT)
        | .gte => .ok (emitByte fc OP_GTE)
        | _ => .error "unsupported binary op"
  | .assign lhs value op line =>
      let fc := setLine fc line
      match lhs with
      | .variable name _ =>
          let fc :=
            if op = .define then
              match mapGet fc.locals name with
              | some _ => fc
              | none => (addLocal fc name).2
            else fc
          (do
            let fc ← compileExpr fc value
            match resolveLocal fc name with
            | some slot => .ok (emitBytes fc [OP_SET_LOCAL, slot])
            | none => .ok (emitGlobalSet fc name (op = .define)))
      | .index tgt idx _ => do
          let fc ← compileExpr fc tgt
          let fc ← compileExpr fc idx
          let fc ← compileExpr fc value
          .ok (emitByte fc OP_INDEX_SET)
      | _ => .error "invalid assignment target"
  | .index l idx line => do
      let fc := setLine fc line
      let fc ← compileExpr fc l
      let fc ← compileExpr fc idx
      .ok (emitByte fc OP_INDEX_GET)

def compileExprList (fc : FuncCompiler) (es : List Expr) :
    Except String FuncCompiler :=
  match es with
  | [] => .ok fc
  | e :: rest => do
      let fc ← compileExpr fc e
      compileExprList fc rest

end

mutual

/-- `funcCompiler.compileBlock`. -/
def compileBlock (fc : FuncCompiler) (stmts : List Stmt) :
    Except String FuncCompiler :=
  match stmts with
  | [] => .ok fc
  | st :: rest => do
      let fc ← compileStmt (setLine fc st.line) st
      compileBlock fc rest

def compileStmt (fc : FuncCompiler) (st : Stmt) : Except String FuncCompiler :=
  match st with
  | .exprStmt e _ => do
      let fc ← compileExpr fc e
      match e with
      | .assign _ _ _ _ => .ok fc
      | _ => .ok (emitByte fc OP_POP)
  | .returnStmt value _ => do
      let fc ←
        match value with
        | some e => compileExpr fc e
        | none => .ok (emitByte fc OP_NULL)
      .ok (emitByte fc OP_RETURN)
  | .whileStmt cond body _ => do
      let loopStart := fc.code.length
      let fc ← compileExpr fc cond
      let j := emitJump fc OP_JUMP_IF_FALSE
      let fc := emitByte j.2 OP_POP
      let fc ← compileBlock fc body
      let fc := emitLoop fc loopStart
      let fc := patchJump fc j.1
      .ok (emitByte fc OP_POP)

end

/-- `compiler.compileFunction`: parameters become the first locals; an
implicit `NULL; RETURN` is appended unless the body already ends in a
return. -/
def compileFunction (source name : String) (params : List String)
    (body : List Stmt) : Except String Prototype := do
  if 256 ≤ params.length then .error "too many parameters"
  else
    let fc := params.foldl (fun fc p => (addLocal fc p).2) (newFuncCompiler source)
    let fc ← compileBlock fc body
    let fc :=
      if body.isEmpty ∨ lastOp fc ≠ OP_RETURN then
        emitByte (emitByte fc OP_NULL) OP_RETURN
      else fc
    .ok (.mk name source params.length (.mk fc.code fc.consts fc.lines)
          fc.upvalues fc.nextLoc)

/-- `compiler.Compile`: each top-level function declaration becomes a
module entry (a Go map write, so a duplicate name replaces the earlier
entry); any other top-level statement fails the module. -/
def Compile (prog : List TopStmt) (source : String) :
    Except String (List (String × Prototype)) :=
  compileLoop prog []
where
  compileLoop : List TopStmt → List (String × Prototype) →
      Except String (List (String × Prototype))
    | [], acc => .ok acc
    | .funcDecl name params body _ :: rest, acc => do
        let proto ← compileFunction source name params body
        compileLoop rest (mapSet acc name proto)
    | .otherStmt :: _, _ =>
        .error "top-level statements other than func are not supported"

/-! ## Result accessors and the source → result pipeline -/

def resultValue : RunResult → Option Value
  | .value v _ => some v
  | _ => none

def resultErrMsg : RunResult → Option String
  | .error e _ => some e.message
  | _ => none

def resultErrFn : RunResult → Option String
  | .error e _ => some e.frame.function
  | _ => none

def resultErrLine : RunResult → Option Nat
  | .error e _ => some e.frame.line
  | _ => none

/-- The VM's data stack after the invocation finished. -/
def resultStack : RunResult → Option (List Value)
  | .error _ s => some s.stack
  | .value _ s => some s.stack
  | .timeout _ => none

def resultOpenUps : RunResult → Option (List Nat)
  | .error _ s => some s.openUpvalues
  | .value _ s => some s.openUpvalues
  | .timeout _ => none

def isTimeout : RunResult → Bool
  | .timeout _ => true
  | _ => false

/-- Compile a program, load the module into a fresh VM with the given
instruction limit, and call the entry function without arguments
(`LoadSource` followed by `Call`). -/
def pipeline (prog : List TopStmt) (entry : String) (limit : Nat)
    (fuel : Nat) : RunResult :=
  match Compile prog "test" with
  | .ok m => vmCall (loadModule { vmNew with instLimit := limit } m) entry [] fuel
  | .error m => .error (mkErrNoFrame m) vmNew

/-! ## The concrete programs of the claims -/

/-- `func t(){ return false && true }` -/
def progAndFalse : List TopStmt :=
  [ .funcDecl "t" []
      [ .returnStmt (some (.binary (.bool false 1) .andand (.bool true 1) 1)) 1 ] 1 ]

/-- `func u(){ return true || false }` -/
def progOrTrue : List TopStmt :=
  [ .funcDecl "u" []
      [ .returnStmt (some (.binary (.bool true 1) .oror (.bool false 1) 1)) 1 ] 1 ]

/-- `func spin(){ while(true){} }` -/
def progSpin : List TopStmt :=
  [ .funcDecl "spin" [] [ .whileStmt (.bool true 1) [] 1 ] 1 ]

/-- `func r(){ return [0 .. 0] }` -/
def progRange00 : List TopStmt :=
  [ .funcDecl "r" [] [ .returnStmt (some (.range (.num "0" 1) (.num "0" 1) 1)) 1 ] 1 ]

/-- `func r(){ return [3 .. 0] }` -/
def progRange30 : List TopStmt :=
  [ .funcDecl "r" [] [ .returnStmt (some (.range (.num "3" 1) (.num "0" 1) 1)) 1 ] 1 ]

/-- `func r(){ return [0.5 .. 2] }` -/
def progRangeFrac : List TopStmt :=
  [ .funcDecl "r" [] [ .returnStmt (some (.range (.num "0.5" 1) (.num "2" 1) 1)) 1 ] 1 ]

/-- `func r(){ return ["a" .. 2] }` -/
def progRangeStr : List TopStmt :=
  [ .funcDecl "r" [] [ .returnStmt (some (.range (.str "a" 1) (.num "2" 1) 1)) 1 ] 1 ]

/-- `func bad(){ return 1 + [0][5] }` — fails with a value still on the
data stack. -/
def progBad : List TopStmt :=
  [ .funcDecl "bad" []
      [ .returnStmt (some (.binary (.num "1" 1) .plus
          (.index (.arr [.num "0" 1] 1) (.num "5" 1) 1) 1)) 1 ] 1 ]

/-- Two top-level declarations of `f`; the second body is `return true`
so the surviving prototype is recognisable. -/
def progDup : List TopStmt :=
  [ .funcDecl "f" [] [] 1,
    .funcDecl "f" [] [ .returnStmt (some (.bool true 1)) 1 ] 1 ]

/-- `func one(){ return true }` — a successfully returning program. -/
def progOne : List TopStmt :=
  [ .funcDecl "one" [] [ .returnStmt (some (.bool true 1)) 1 ] 1 ]

/-! ## Go maps and object iterators (value.go)

`vm.Value.Obj` is a Go `map[string]Value`.  A Go map is observable only
through lookups; its `range` enumeration order is deliberately left
unspecified by the Go language.  The faithful denotation of the map
value itself is therefore a function `String → Option Value`. -/

def GoMap : Type := String → Option Value

def goMapEmpty : GoMap := fun _ => none

/-- `obj[k] = v`. -/
def goMapSet (m : GoMap) (k : String) (v : Value) : GoMap :=
  fun x => if x = k then some v else m x

/-- The map-building loop of `OP_OBJECT` and of object literals: the
fields are inserted in evaluation order. -/
def objectFromFields (fields : List (String × Value)) : GoMap :=
  fields.foldl (fun m kv => goMapSet m kv.1 kv.2) goMapEmpty

/-- `vm.Iterator` (object-backed part; `obj` is the shared reference to
the live map, `keys` the snapshot captured at construction time). -/
structure ObjIterator : Type where
  obj : GoMap
  keys : List String
  index : Nat

/-- `vm.NewObjectIterator`.  `for k := range obj` enumerates the map's
keys in an order the Go specification leaves undefined; the embedding
takes that enumeration as the parameter `ks`. -/
def NewObjectIterator (obj : GoMap) (ks : List String) : ObjIterator :=
  { obj := obj, keys := ks, index := 0 }

/-- `Iterator.Next` (object branch): read the next captured key, look
the value up in the live map (a missing key yields the zero value,
null), and advance. -/
def iterNext (it : ObjIterator) : Option (String × Value) × ObjIterator :=
  if it.keys.length ≤ it.index then (none, it)
  else
    let k := it.keys.getD it.index ""
    (some (k, (it.obj k).getD Value.vnull), { it with index := it.index + 1 })

/-- The sequence of keys produced by exhausting an iterator. -/
def iterKeyTrace : Nat → ObjIterator → List String
  | 0, _ => []
  | fuel + 1, it =>
      match iterNext it with
      | (some kv, it2) => kv.1 :: iterKeyTrace fuel it2
      | (none, _) => []

/-! ## The lexer (internal/lexer/lexer.go)

Token position bookkeeping (offset/line/column) is carried by the Go
lexer but feeds no decision about which tokens are emitted, so the
embedding drops it; everything else — the byte cursor, the bracket
counters, the last-emitted-token register and every branch of
`NextToken` — is translated case by case. -/

inductive Tok : Type where
  | illegal | eof | newline
  | ident | var | number | string
  | kwIf | kwElseif | kwElse | kwWhile | kwFor | kwIn | kwFunc | kwReturn
  | kwTrue | kwFalse | kwNull | kwYield | kwIterate | kwUsing
  | assign | define | plus | minus | star | slash | bang
  | equal | notEqual | less | lessEqual | greater | greaterEqual
  | andand | oror | rangeTok
  | comma | colon | dot | lparen | rparen | lbrace | rbrace
  | lbracket | rbracket
deriving DecidableEq

/-- A token: kind and literal text. -/
structure Token : Type where
  typ : Tok
  lit : String
deriving DecidableEq

/-- `lexer.Lexer` (without position bookkeeping).  `ch = '\x00'` is the
Go byte-0 end-of-input sentinel. -/
structure Lexer : Type where
  input : List Char
  readPos : Nat
  ch : Char
  parenDepth : Nat
  bracketDepth : Nat
  lastToken : Tok

/-- `lexer.readChar`. -/
def readChar (l : Lexer) : Lexer :=
  if l.input.length ≤ l.readPos then { l with ch := '\x00' }
  else { l with ch := l.input.getD l.readPos '\x00', readPos := l.readPos + 1 }

/-- `lexer.peekChar`. -/
def peekChar (l : Lexer) : Char :=
  if l.input.length ≤ l.readPos then '\x00'
  else l.input.getD l.readPos '\x00'

/-- `lexer.New`: the start of input counts as a newline boundary. -/
def lexNew (s : String) : Lexer :=
  readChar { input := s.toList, readPos := 0, ch := '\x00',
             parenDepth := 0, bracketDepth := 0, lastToken := .newline }

def isLetter (c : Char) : Bool :=
  (97 ≤ c.toNat && c.toNat ≤ 122) || (65 ≤ c.toNat && c.toNat ≤ 90) || c = '_'

def isDigit (c : Char) : Bool :=
  48 ≤ c.toNat && c.toNat ≤ 57

/-- `lexer.newlineEligible`. -/
def newlineEligible : Tok → Bool
  | .ident | .var | .number | .string
  | .kwTrue | .kwFalse | .kwNull
  | .rparen | .rbracket | .rbrace
  | .kwReturn => true
  | _ => false

/-- `lexer.consumeNewline`: build the newline token, advance past the
physical newline, and emit only when both bracket counters are zero and
the last emitted token is newline-eligible. -/
def consumeNewline (l : Lexer) : Option Token × Lexer :=
  if (readChar l).parenDepth = 0 ∧ (readChar l).bracketDepth = 0 ∧
      newlineEligible (readChar l).lastToken then
    (some { typ := .newline, lit := "" }, { readChar l with lastToken := .newline })
  else
    (none, readChar l)

def skipWS : Nat → Lexer → Lexer
  | 0, l => l
  | fuel + 1, l =>
      if l.ch = ' ' ∨ l.ch = '\t' ∨ l.ch = '\r' then skipWS fuel (readChar l)
      else l

def skipLineComment : Nat → Lexer → Lexer
  | 0, l => l
  | fuel + 1, l =>
      if l.ch ≠ '\x00' ∧ l.ch ≠ '\n' then skipLineComment fuel (readChar l)
      else l

def skipBlockCommentLoop : Nat → Lexer → Lexer
  | 0, l => l
  | fuel + 1, l =>
      if l.ch = '\x00' then l
      else if l.ch = '*' ∧ peekChar l = '/' then readChar (readChar l)
      else skipBlockCommentLoop fuel (readChar l)

def skipBlockComment (fuel : Nat) (l : Lexer) : Lexer :=
  skipBlockCommentLoop fuel (readChar (readChar l))

/-- `token.LookupIdent`. -/
def lookupIdent (s : String) : Tok :=
  if s = "if" then .kwIf
  else if s = "elseif" then .kwElseif
  else if s = "else" then .kwElse
  else if s = "while" then .kwWhile
  else if s = "for" then .kwFor
  else if s = "in" then .kwIn
  else if s = "func" then .kwFunc
  else if s = "return" then .kwReturn
  else if s = "true" then .kwTrue
  else if s = "false" then .kwFalse
  else if s = "null" then .kwNull
  else if s = "yield" then .kwYield
  else if s = "iterate" then .kwIterate
  else if s = "using" then .kwUsing
  else .ident

def collectWhile (p : Char → Bool) : Nat → Lexer → List Char → List Char × Lexer
  | 0, l, acc => (acc, l)
  | fuel + 1, l, acc =>
      if p l.ch then collectWhile p fuel (readChar l) (acc ++ [l.ch])
      else (acc, l)

/-- `lexer.readIdentifier`. -/
def readIdentifier (fuel : Nat) (l : Lexer) : Token × Lexer :=
  let r := collectWhile (fun c => isLetter c || isDigit c) fuel l []
  let lit := String.mk r.1
  ({ typ := lookupIdent lit, lit := lit }, { r.2 with lastToken := lookupIdent lit })

/-- `lexer.readVariable`: a lone `$` is illegal; the literal drops the
sigil. -/
def readVariable (fuel : Nat) (l : Lexer) : Token × Lexer :=
  let l2 := readChar l
  if ! isLetter l2.ch then
    ({ typ := .illegal, lit := "$" }, { l2 with lastToken := .illegal })
  else
    let r := collectWhile (fun c => isLetter c || isDigit c) fuel l2 []
    ({ typ := .var, lit := String.mk r.1 }, { r.2 with lastToken := .var })

/-- `lexer.readNumber`. -/
def readNumber (fuel : Nat) (l : Lexer) : Token × Lexer :=
  let r := collectWhile isDigit fuel l []
  let l2 := r.2
  if l2.ch = '.' ∧ isDigit (peekChar l2) then
    let r2 := collectWhile isDigit fuel (readChar l2) (r.1 ++ ['.'])
    ({ typ := .number, lit := String.mk r2.1 }, { r2.2 with lastToken := .number })
  else
    ({ typ := .number, lit := String.mk r.1 }, { l2 with lastToken := .number })

/-- `lexer.readString` (escapes `\" \\ \n \r \t \b \f`; any other
escaped byte passes through; end-of-input inside the string yields an
illegal token). -/
def readStringLoop : Nat → Lexer → List Char → Token × Lexer
  | 0, l, acc => ({ typ := .string, lit := String.mk acc }, { l with lastToken := .string })
  | fuel + 1, l, acc =>
      let l2 := readChar l
      if l2.ch = '\x00' then
        ({ typ := .illegal, lit := "unterminated string" }, { l2 with lastToken := .illegal })
      else if l2.ch = '"' then
        let l3 := readChar l2
        ({ typ := .string, lit := String.mk acc }, { l3 with lastToken := .string })
      else if l2.ch = '\\' then
        let l3 := readChar l2
        let c :=
          if l3.ch = '"' ∨ l3.ch = '\\' then l3.ch
          else if l3.ch = 'n' then '\n'
          else if l3.ch = 'r' then '\r'
          else if l3.ch = 't' then '\t'
          else if l3.ch = 'b' then '\x08'
          else if l3.ch = 'f' then '\x0c'
          else l3.ch
        readStringLoop fuel l3 (acc ++ [c])
      else
        readStringLoop fuel l2 (acc ++ [l2.ch])

def readStringTok (fuel : Nat) (l : Lexer) : Token × Lexer :=
  readStringLoop fuel l []

/-- A one- or two-character operator token: build, advance, record. -/
def opTok1 (l : Lexer) (t : Tok) (lit : String) : Token × Lexer :=
  ({ typ := t, lit := lit }, { readChar l with lastToken := t })

def opTok2 (l : Lexer) (t : Tok) (lit : String) : Token × Lexer :=
  ({ typ := t, lit := lit }, { readChar (readChar l) with lastToken := t })

/-- `lexer.NextToken`.  The fuel bounds the skipping loop (whitespace,
comments, suppressed newlines); each pass consumes at least one input
character. -/
def nextToken : Nat → Lexer → Token × Lexer
  | 0, l => ({ typ := .eof, lit := "" }, l)
  | fuel + 1, l =>
      let l := skipWS (l.input.length + 1) l
      if l.ch = '\n' then
        match consumeNewline l with
        | (some tok, l2) => (tok, l2)
        | (none, l2) => nextToken fuel l2
      else if l.ch = '\x00' then ({ typ := .eof, lit := "" }, l)
      else if l.ch = '/' ∧ peekChar l = '/' then
        nextToken fuel (skipLineComment (l.input.length + 1) l)
      else if l.ch = '/' ∧ peekChar l = '*' then
        nextToken fuel (skipBlockComment (l.input.length + 1) l)
      else if l.ch = '=' then
        if peekChar l = '=' then opTok2 l .equal "==" else opTok1 l .assign "="
      else if l.ch = ':' then
        if peekChar l = '=' then opTok2 l .define ":=" else opTok1 l .colon ":"
      else if l.ch = '+' then opTok1 l .plus "+"
      else if l.ch = '-' then opTok1 l .minus "-"
      else if l.ch = '*' then opTok1 l .star "*"
      else if l.ch = '/' then opTok1 l .slash "/"
      else if l.ch = '!' then
        if peekChar l = '=' then opTok2 l .notEqual "!=" else opTok1 l .bang "!"
      else if l.ch = '<' then
        if peekChar l = '=' then opTok2 l .lessEqual "<=" else opTok1 l .less "<"
      else if l.ch = '>' then
        if peekChar l = '=' then opTok2 l .greaterEqual ">=" else opTok1 l .greater ">"
      else if l.ch = '&' then
        if peekChar l = '&' then opTok2 l .andand "&&" else opTok1 l .illegal "&"
      else if l.ch = '|' then
        if peekChar l = '|' then opTok2 l .oror "||" else opTok1 l .illegal "|"
      else if l.ch = '.' then
        if peekChar l = '.' then opTok2 l .rangeTok ".." else opTok1 l .dot "."
      else if l.ch = ',' then opTok1 l .comma ","
      else if l.ch = '(' then
        let r := opTok1 l .lparen "("
        (r.1, { r.2 with parenDepth := r.2.parenDepth + 1 })
      else if l.ch = ')' then
        let r := opTok1 l .rparen ")"
        (r.1, { r.2 with parenDepth := r.2.parenDepth - 1 })
      else if l.ch = '[' then
        let r := opTok1 l .lbracket "["
        (r.1, { r.2 with bracketDepth := r.2.bracketDepth + 1 })
      else if l.ch = ']' then
        let r := opTok1 l .rbracket "]"
        (r.1, { r.2 with bracketDepth := r.2.bracketDepth - 1 })
      else if l.ch = '{' then opTok1 l .lbrace "\x7b"
      else if l.ch = '}' then opTok1 l .rbrace "\x7d"
      else if l.ch = '"' then readStringTok (l.input.length + 1) l
      else if l.ch = '$' then readVariable (l.input.length + 1) l
      else if isLetter l.ch then readIdentifier (l.input.length + 1) l
      else if isDigit l.ch then readNumber (l.input.length + 1) l
      else opTok1 l .illegal (String.mk [l.ch])

/-- The full token stream, ending with the end-of-input token. -/
def lexAll : Nat → Lexer → List Token
  | 0, _ => []
  | fuel + 1, l =>
      let r := nextToken (l.input.length + 2) l
      match r.1.typ with
      | .eof => [r.1]
      | _ => r.1 :: lexAll fuel r.2

def tokensOf (s : String) : List Token :=
  lexAll (s.length + 2) (lexNew s)

/-! ## Predicates and fixtures used by the verified properties -/

/-- The VM state carried by a dispatch outcome. -/
def outState : Outcome → VMState
  | .ok s => s
  | .done _ s => s
  | .fail _ s => s

/-- The VM state after a complete invocation. -/
def runState : RunResult → VMState
  | .value _ s => s
  | .error _ s => s
  | .timeout s => s

/-- The upvalue cell `id` exists and is closed. -/
def cellClosed (cells : List Upvalue) (id : Nat) : Prop :=
  ∃ u, cellAt cells id = some u ∧ u.location = none

/-- The `vm.Kind` tag of a value. -/
def kindOf : Value → Nat
  | .vnull => 0
  | .vbool _ => 1
  | .vnum _ => 2
  | .vstr _ => 3
  | .varr _ => 4
  | .vfunc _ => 6
  | .verr _ => 7
  | .viter _ => 8

/-- The frame a modelled locals pointer `(uid, _)` dereferences into:
the first frame carrying that uid (uids are issued by a monotone
counter, so at most one live frame carries any uid). -/
def frameWith (frames : List Frame) (uid : Nat) : Option Frame :=
  frames.find? (fun f => f.uid == uid)

/-- `(uid, locals-array length)` — the data of a frame that governs
which upvalue cells point into it. -/
def frameShape (f : Frame) : Nat × Nat := (f.uid, f.locals.length)

/-- A modelled locals pointer that dereferences into a live frame. -/
def liveSlot (frames : List Frame) (uid slot : Nat) : Prop :=
  ∃ f ∈ frames, f.uid = uid ∧ slot < f.locals.length

/-- Reachability invariant of the dispatch loop: there is a current
frame, the outermost frame's stack base is 0, the open-upvalue list has
no duplicates, and every listed cell is open and points into a live
frame's locals. -/
def Inv (s : VMState) : Prop :=
  s.frames ≠ [] ∧
  (∀ f, s.frames.getLast? = some f → f.base = 0) ∧
  s.openUpvalues.Nodup ∧
  (∀ id ∈ s.openUpvalues, ∃ u, cellAt s.cells id = some u ∧
    ∃ uid slot, u.location = some (uid, slot) ∧ liveSlot s.frames uid slot)

/-- What one dispatch outcome guarantees: a continuing state satisfies
the invariant again, and a delivered final state has an empty stack and
no open upvalues (an error leaves the state as-is). -/
def InvPost : Outcome → Prop
  | .ok s2 => Inv s2
  | .done _ s2 => s2.stack = [] ∧ s2.openUpvalues = []
  | .fail _ _ => True

/-- The prototype `compileFunction` produces for
`func one(){ return true }`. -/
def oneProto : Prototype :=
  .mk "one" "test" 0 (.mk [OP_TRUE, OP_RETURN] [] [(0, 1), (1, 1)]) [] 0

def oneFunc : FuncVal :=
  { proto := some oneProto, upvalues := [], name := "one", source := "test" }

/-- A VM state one dispatch away from tripping an instruction limit of
1 (used to instantiate the general limit property). -/
def limitFrame : Frame :=
  { fn := { proto := some (.mk "spin" "test" 0 (.mk [OP_TRUE] [] [(0, 1)]) [] 0),
            upvalues := [], name := "spin", source := "test" },
    ip := 0, locals := [], base := 0, lastOp := -1, uid := 0 }

def limitState : VMState :=
  { vmNew with frames := [limitFrame], instLimit := 1, instCount := 1 }

/-- A state with one open upvalue cell referencing slot 0 of the live
frame with uid 5, and one closed cell, instantiating the capture
properties. -/
def upvFrame : Frame :=
  { fn := oneFunc, ip := 0, locals := [Value.vnull, Value.vnull],
    base := 0, lastOp := -1, uid := 5 }

def upvState : VMState :=
  { vmNew with frames := [upvFrame],
               cells := [⟨some (5, 0), Value.vnull⟩, ⟨none, Value.vnum 7⟩],
               openUpvalues := [0] }

/-! # Theorems -/

set_option maxRecDepth 100000

theorem drop_getD_cons : ∀ (ks : List String) (i : Nat), i < ks.length →
    ks.drop i = ks.getD i "" :: ks.drop (i + 1) := by
  intro ks
  induction ks with
  | nil => intro i h; simp at h
  | cons a t ih =>
      intro i h
      cases i with
      | zero => simp [List.getD]
      | succ j =>
          have := ih j (by simpa using h)
          simpa [List.getD] using this

/-- The key trace of an object iterator is exactly the captured key
list from the current index on, regardless of the map the iterator
reads its values from. -/
theorem iterKeyTrace_drop (fuel : Nat) :
    ∀ (m : GoMap) (ks : List String) (i : Nat), fuel = ks.length - i →
      iterKeyTrace fuel { obj := m, keys := ks, index := i } = ks.drop i := by
  induction fuel with
  | zero =>
      intro m ks i h
      have hle : ks.length ≤ i := by omega
      rw [List.drop_eq_nil_of_le hle]
      rfl
  | succ n ih =>
      intro m ks i h
      have hlt : i < ks.length := by omega
      have hnotle : ¬ ks.length ≤ i := by omega
      have hnext : iterNext { obj := m, keys := ks, index := i }
          = (some (ks.getD i "", (m (ks.getD i "")).getD .vnull),
             { obj := m, keys := ks, index := i + 1 }) := by
        unfold iterNext
        rw [if_neg hnotle]
      have hrec := ih m ks (i + 1) (by omega)
      calc iterKeyTrace (n + 1) { obj := m, keys := ks, index := i }
          = ks.getD i "" :: iterKeyTrace n { obj := m, keys := ks, index := i + 1 } := by
            rw [iterKeyTrace, hnext]
        _ = ks.getD i "" :: ks.drop (i + 1) := by rw [hrec]
        _ = ks.drop i := (drop_getD_cons ks i hlt).symm

/--
C2: Object for-in iteration.  The parts of the claim about the capture
being a snapshot hold: the keys an object iterator yields are exactly
the list captured at construction (each captured key once, values read
live, later map mutation never alters the captured list, which is a
separate slice).  The insertion-order part cannot hold: `Value.Obj` is
a Go `map[string]Value`, whose value is only its key→value mapping, so
building `{a:1, b:2}` and `{b:2, a:1}` yields *equal* maps (first
conjunct); `NewObjectIterator` sees only the map, hence no function of
the object can visit keys in insertion order for both, and Go `range`
order is in fact unspecified and randomized. -/
theorem C2_object_iteration :
    objectFromFields [("a", .vnum 1), ("b", .vnum 2)]
      = objectFromFields [("b", .vnum 2), ("a", .vnum 1)] ∧
    (∀ (m : GoMap) (ks : List String),
      iterKeyTrace ks.length (NewObjectIterator m ks) = ks) := by
  constructor
  · funext x
    by_cases hx : x = "a" <;> by_cases hy : x = "b" <;>
      simp [objectFromFields, goMapSet, goMapEmpty, hx, hy]
  · intro m ks
    have := iterKeyTrace_drop ks.length m ks 0 (by omega)
    simpa [NewObjectIterator] using this

/--
C3: Equality semantics.  The content-comparison parts of the claim hold
(conjuncts 4–8), but the identity part is broken: the default branch of
`Equal` is `return &a == &b`, comparing the addresses of the two
by-value parameters — two distinct Go variables — so it always yields
false; comparing an array, object, function or iterator value with the
very same value yields false, not true (conjuncts 1–3). -/
theorem C3_equal_identity_always_false :
    (∀ es fs : List Value, Equal (.varr es) (.varr fs) = false) ∧
    (∀ f g : FuncVal, Equal (.vfunc f) (.vfunc g) = false) ∧
    (∀ i j : Nat, Equal (.viter i) (.viter j) = false) ∧
    Equal .vnull .vnull = true ∧
    (∀ a b : Bool, Equal (.vbool a) (.vbool b) = (a == b)) ∧
    (∀ p q : ℚ, Equal (.vnum p) (.vnum q) = (p == q)) ∧
    (∀ a b : String, Equal (.vstr a) (.vstr b) = (a == b)) ∧
    (∀ a b : String, Equal (.verr a) (.verr b) = (a == b)) ∧
    (∀ v w : Value, kindOf v ≠ kindOf w → Equal v w = false) := by
  refine ⟨fun _ _ => rfl, fun _ _ => rfl, fun _ _ => rfl, rfl,
          fun _ _ => rfl, fun _ _ => rfl, fun _ _ => rfl, fun _ _ => rfl, ?_⟩
  intro v w h
  cases v <;> cases w <;> simp [Equal] <;> simp [kindOf] at h

/--
C1: Short-circuit lowering of `&&` and `||`.  The compiler's
`compileLogical` emits `JUMP_IF_FALSE`/`JUMP_IF_TRUE` followed by a
`POP` and the right operand (third conjunct shows the exact bytes for
`return false && true`), a lowering that leaves the correct result only
if the jump *peeks* at the condition.  The interpreter's
`OP_JUMP_IF_FALSE`/`OP_JUMP_IF_TRUE` pop the condition, so when the
left operand short-circuits, its value is gone: `func t(){ return
false && true }` returns null instead of false, and `func u(){ return
true || false }` returns null instead of true. -/
theorem C1_short_circuit_value_lost :
    resultValue (pipeline progAndFalse "t" 0 100) = some Value.vnull ∧
    resultValue (pipeline progOrTrue "u" 0 100) = some Value.vnull ∧
    (match Compile progAndFalse "test" with
     | .ok m => (mapGet m "t").map (fun p => p.chunk.code)
     | .error _ => none)
      = some [OP_FALSE, OP_JUMP_IF_FALSE, 0, 6, OP_POP, OP_TRUE, OP_RETURN] := by
  refine ⟨by rfl, by rfl, by rfl⟩

/--
C5 counterexample: a module with two top-level declarations of `f`
compiles successfully — `Compile` returns `.ok` — and the module maps
`f` to the *second* prototype (body `return true`, code
`[TRUE, RETURN]`; the first body would compile to `[NULL, RETURN]`).
The claim that compilation fails the whole module is false. -/
theorem C5_counterexample_duplicate_compiles :
    (match Compile progDup "test" with
     | .ok m => some ((mapGet m "f").map (fun p => p.chunk.code))
     | .error _ => none)
      = some (some [OP_TRUE, OP_RETURN]) := by rfl

/--
C5 amended: compiling a program with two same-named top-level function
declarations does not fail; the Go map write `Functions[name] = proto`
makes the later declaration silently replace the earlier one (the
module keys stay unique because it is a map). -/
theorem C5_duplicate_overwrites (name : String) (ps1 ps2 : List String)
    (b1 b2 : List Stmt) (l1 l2 : Nat) (source : String) (p1 p2 : Prototype)
    (h1 : compileFunction source name ps1 b1 = .ok p1)
    (h2 : compileFunction source name ps2 b2 = .ok p2) :
    Compile [.funcDecl name ps1 b1 l1, .funcDecl name ps2 b2 l2] source
      = .ok [(name, p2)] := by
  simp only [Compile, Compile.compileLoop, h1, h2, mapSet]
  rfl

theorem C5_duplicate_overwrites_witness :
    Compile [.funcDecl "f" [] [] 1,
             .funcDecl "f" [] [.returnStmt (some (.bool true 1)) 1] 1] "test"
      = .ok [("f", .mk "f" "test" 0 (.mk [OP_TRUE, OP_RETURN] [] [(0, 1), (1, 1)]) [] 0)] :=
  C5_duplicate_overwrites "f" [] [] [] [.returnStmt (some (.bool true 1)) 1] 1 1 "test"
    (.mk "f" "test" 0 (.mk [OP_NULL, OP_RETURN] [] []) [] 0)
    (.mk "f" "test" 0 (.mk [OP_TRUE, OP_RETURN] [] [(0, 1), (1, 1)]) [] 0)
    (by rfl) (by rfl)

/--
C4 counterexample: `func bad(){ return 1 + [0][5] }` ends in the
runtime error "index out of bounds", and after this completed failing
invocation the data stack still holds the left operand `1` — the stack
is not empty after a failure (state is only cleared by `ResetState` at
the start of the *next* invocation). -/
theorem C4_counterexample_stack_not_empty :
    resultErrMsg (pipeline progBad "bad" 0 100) = some "index out of bounds" ∧
    resultStack (pipeline progBad "bad" 0 100) = some [Value.vnum 1] := by
  refine ⟨by rfl, by rfl⟩

/--
C9 counterexample: lexing `"a\n\n"` emits exactly one logical newline
token.  Both physical newlines follow the newline-eligible identifier
`a` as the previously emitted *non-newline* token, with both bracket
counters zero, so the claim ("whenever both conditions hold the newline
token is emitted — including for each of several consecutive physical
newlines") requires two newline tokens; the lexer suppresses the second
because emitting a newline sets `lastToken` to the (non-eligible)
newline kind. -/
theorem C9_counterexample_consecutive_newlines :
    tokensOf "a\n\n" = [⟨.ident, "a"⟩, ⟨.newline, ""⟩, ⟨.eof, ""⟩] := by decide

theorem buildRangeLoop_spec : ∀ (n : Nat) (i stepv stop : Int),
    (stepv = 1 ∨ stepv = -1) → (stop - i) * stepv = (n : Int) →
    buildRangeLoop (n + 1) i stop stepv
      = (List.range (n + 1)).map
          (fun (k : Nat) => Value.vnum ((i + stepv * (k : Int) : Int) : ℚ)) := by
  intro n
  induction n with
  | zero =>
      intro i stepv stop hs h
      have hstop : stop = i := by
        rcases hs with h1 | h1 <;> subst h1 <;> omega
      subst hstop
      rw [buildRangeLoop, if_pos rfl]
      simp [List.range_succ]
  | succ m ih =>
      intro i stepv stop hs h
      have hne : i ≠ stop := by
        intro he
        subst he
        simp at h
        omega
      have h2 : (stop - (i + stepv)) * stepv = (m : Int) := by
        have hsq : stepv * stepv = 1 := by rcases hs with h1 | h1 <;> subst h1 <;> norm_num
        have : (stop - (i + stepv)) * stepv = (stop - i) * stepv - stepv * stepv := by ring
        rw [this, h, hsq]
        push_cast
        ring
      have hrec := ih (i + stepv) stepv stop hs h2
      rw [buildRangeLoop, if_neg hne, hrec]
      conv_rhs => rw [List.range_succ_eq_map]
      simp only [List.map_cons, List.map_map]
      congr 1
      · norm_num
      · apply List.map_congr_left
        intro k _
        simp only [Function.comp_apply]
        congr 1
        push_cast
        ring

/--
C8: Range evaluation.  First conjunct: for any pair of integer
operands, `buildRange` produces the inclusive sequence with step `+1`
(or `-1` when the end lies below the start).  Then the end-to-end
cases: `[0 .. 0]` evaluates to the single-element array `[0]`,
`[3 .. 0]` to `[3,2,1,0]`; a fractional operand (`0.5`) raises "index
must be integer" and a non-number operand raises "index must be
number". -/
theorem C8_range_inclusive_sequence :
    (∀ start stop : Int,
      buildRange start stop
        = (List.range (((stop - start) * (if stop < start then -1 else 1)).toNat + 1)).map
            (fun (k : Nat) => Value.vnum
              ((start + (if stop < start then -1 else 1) * (k : Int) : Int) : ℚ))) ∧
    resultValue (pipeline progRange00 "r" 0 100) = some (.varr [.vnum 0]) ∧
    resultValue (pipeline progRange30 "r" 0 100)
      = some (.varr [.vnum 3, .vnum 2, .vnum 1, .vnum 0]) ∧
    resultErrMsg (pipeline progRangeFrac "r" 0 100) = some "index must be integer" ∧
    resultErrMsg (pipeline progRangeStr "r" 0 100) = some "index must be number" := by
  refine ⟨?_, by rfl, by rfl, by rfl, by rfl⟩
  intro start stop
  show buildRangeLoop
      (((stop - start) * (if stop < start then -1 else 1)).toNat + 1) start stop
      (if stop < start then -1 else 1) = _
  by_cases hlt : stop < start
  · rw [if_pos hlt]
    have hnn : 0 ≤ (stop - start) * (-1 : Int) := by omega
    have hcast : (stop - start) * (-1 : Int)
        = (((stop - start) * (-1 : Int)).toNat : Int) := (Int.toNat_of_nonneg hnn).symm
    exact buildRangeLoop_spec ((stop - start) * (-1 : Int)).toNat start (-1) stop
      (Or.inr rfl) hcast
  · rw [if_neg hlt]
    have hnn : 0 ≤ (stop - start) * (1 : Int) := by omega
    have hcast : (stop - start) * (1 : Int)
        = (((stop - start) * (1 : Int)).toNat : Int) := (Int.toNat_of_nonneg hnn).symm
    exact buildRangeLoop_spec ((stop - start) * (1 : Int)).toNat start 1 stop
      (Or.inl rfl) hcast

/--
C10: `OP_SET_GLOBAL` and `OP_DEFINE_GLOBAL` have identical semantics.
The two dispatch cases are the same function (first conjunct), the
interpreter dispatches the two opcodes to exactly those cases (second
and third), binding is unconditional — a `=` write to a name with no
existing binding creates it rather than raising (fourth, with no
existence premise) — and the compiler's `emitGlobalSet` emits code for
`:=` and `=` that differs only in the opcode byte against the same
constant pool (fifth), so `$x := v` at global resolution behaves the
same as `$x = v`. -/
theorem C10_set_global_define_global_same :
    (∀ proto fr rest s, opSetGlobal proto fr rest s = opDefineGlobal proto fr rest s) ∧
    (∀ proto fr rest s, execOp OP_SET_GLOBAL proto fr rest s = opSetGlobal proto fr rest s) ∧
    (∀ proto fr rest s,
      execOp OP_DEFINE_GLOBAL proto fr rest s = opDefineGlobal proto fr rest s) ∧
    (∀ g name v, globalsGet (globalsSet g name v) name = some v) ∧
    (∀ fc name, ∃ pre hi lo,
      (emitGlobalSet fc name true).code = pre ++ [OP_DEFINE_GLOBAL, hi, lo] ∧
      (emitGlobalSet fc name false).code = pre ++ [OP_SET_GLOBAL, hi, lo] ∧
      (emitGlobalSet fc name true).consts = (emitGlobalSet fc name false).consts) := by
  refine ⟨fun _ _ _ _ => rfl, fun _ _ _ _ => rfl, fun _ _ _ _ => rfl, ?_, ?_⟩
  · intro g name v
    induction g with
    | nil => simp [globalsSet, globalsGet]
    | cons kv rest ih =>
        by_cases hk : kv.1 = name <;>
          simp [globalsSet, globalsGet, hk, ih]
  · intro fc name
    refine ⟨(recordLine (addConst fc (.cstr name)).2).code,
      (addConst fc (.cstr name)).1 / 256 % 256, (addConst fc (.cstr name)).1 % 256,
      ?_, ?_, rfl⟩
    · simp [emitGlobalSet, emitBytes, OP_DEFINE_GLOBAL]
    · simp [emitGlobalSet, emitBytes, OP_SET_GLOBAL]

/--
C6: Instruction limit.  First conjunct, the general trip: whenever the
limit is positive and already used up, the next dispatch of any
instruction fails with message "instruction limit exceeded", carrying
the current frame's context (function name, source label, and the line
derived from the chunk's line table at the dispatched offset).  Then
the literal scenario: `func spin(){while(true){}}` with limit 50 fails
with that error, frame function `spin`, line 1; and with limit 0
(unlimited) the same program is still running after 300 dispatches. -/
theorem C6_instruction_limit_exceeded :
    (∀ (s : VMState) (fr : Frame) (rest : List Frame) (proto : Prototype),
      s.frames = fr :: rest → fr.fn.proto = some proto →
      fr.ip < proto.chunk.code.length → 0 < s.instLimit →
      s.instLimit ≤ s.instCount →
      ∃ e s2, step s = .fail e s2 ∧
        e.message = "instruction limit exceeded" ∧
        e.frame.function = fr.fn.name ∧
        e.frame.source = (if fr.fn.source = "" then proto.source else fr.fn.source) ∧
        e.frame.line = lineForOffset proto.chunk.lines (fr.ip : Int) ∧
        e.frame.ip = (fr.ip : Int)) ∧
    resultErrMsg (pipeline progSpin "spin" 50 100) = some "instruction limit exceeded" ∧
    resultErrFn (pipeline progSpin "spin" 50 100) = some "spin" ∧
    resultErrLine (pipeline progSpin "spin" 50 100) = some 1 ∧
    isTimeout (pipeline progSpin "spin" 0 300) = true := by
  refine ⟨?_, by rfl, by rfl, by rfl, by rfl⟩
  intro s fr rest proto hfr hp hip hpos hcount
  have hnotend : ¬ proto.chunk.code.length ≤ fr.ip := by omega
  have hlim : 0 < s.instLimit ∧ s.instLimit < s.instCount + 1 := ⟨hpos, by omega⟩
  refine ⟨mkErr { fr with lastOp := (fr.ip : Int), ip := fr.ip + 1 }
            "instruction limit exceeded",
          { s with frames := { fr with lastOp := (fr.ip : Int), ip := fr.ip + 1 } :: rest,
                   instCount := s.instCount + 1 },
          ?_, rfl, ?_, ?_, ?_, ?_⟩
  · simp only [step, hfr, hp]
    rw [if_neg hnotend, if_pos hlim]
  · simp [mkErr, frameInfo, offsetForFrame, hp]
  · simp [mkErr, frameInfo, offsetForFrame, hp]
  · simp [mkErr, frameInfo, offsetForFrame, hp]
  · simp [mkErr, frameInfo, offsetForFrame, hp]

theorem C6_instruction_limit_exceeded_witness :
    ∃ e s2, step limitState = .fail e s2 ∧
      e.message = "instruction limit exceeded" ∧
      e.frame.function = "spin" ∧ e.frame.source = "test" ∧ e.frame.line = 1 := by
  obtain ⟨e, s2, h1, h2, h3, h4, h5, h6⟩ :=
    C6_instruction_limit_exceeded.1 limitState limitFrame []
      (.mk "spin" "test" 0 (.mk [OP_TRUE] [] [(0, 1)]) [] 0)
      rfl rfl (by decide) (by decide) (by decide)
  refine ⟨e, s2, h1, h2, h3, ?_, ?_⟩
  · simpa using h4
  · rw [h5]
    rfl

/--
C9 amended: a physical newline emits a logical newline token iff both
bracket counters are zero and the *immediately previously emitted
token* — newline tokens included — is newline-eligible.  Emitting a
newline records the newline kind as the last token, and newline is not
eligible, so of several consecutive physical newlines after an eligible
token only the first emits a token.  The stream conjuncts pin the
behavior: one newline after an eligible token; suppression inside
parens and brackets and after `{`; a run of three newlines emitting a
single token. -/
theorem C9_newline_emission_conditions :
    (∀ l : Lexer, (consumeNewline l).1 ≠ none ↔
      (l.parenDepth = 0 ∧ l.bracketDepth = 0 ∧ newlineEligible l.lastToken = true)) ∧
    (∀ l tok l2, consumeNewline l = (some tok, l2) →
      tok = ⟨.newline, ""⟩ ∧ l2.lastToken = .newline) ∧
    newlineEligible .newline = false ∧
    tokensOf "a\nb" = [⟨.ident, "a"⟩, ⟨.newline, ""⟩, ⟨.ident, "b"⟩, ⟨.eof, ""⟩] ∧
    tokensOf "f(\n1)"
      = [⟨.ident, "f"⟩, ⟨.lparen, "("⟩, ⟨.number, "1"⟩, ⟨.rparen, ")"⟩, ⟨.eof, ""⟩] ∧
    tokensOf "[1,\n2]"
      = [⟨.lbracket, "["⟩, ⟨.number, "1"⟩, ⟨.comma, ","⟩, ⟨.number, "2"⟩,
         ⟨.rbracket, "]"⟩, ⟨.eof, ""⟩] ∧
    tokensOf "\x7b\n\x7d" = [⟨.lbrace, "\x7b"⟩, ⟨.rbrace, "\x7d"⟩, ⟨.eof, ""⟩] ∧
    tokensOf "a\n\n\nb" = [⟨.ident, "a"⟩, ⟨.newline, ""⟩, ⟨.ident, "b"⟩, ⟨.eof, ""⟩] := by
  have hkeep : ∀ l : Lexer, (readChar l).parenDepth = l.parenDepth ∧
      (readChar l).bracketDepth = l.bracketDepth ∧
      (readChar l).lastToken = l.lastToken := by
    intro l
    unfold readChar
    split <;> exact ⟨rfl, rfl, rfl⟩
  refine ⟨?_, ?_, rfl, by decide, by decide, by decide, by decide, by decide⟩
  · intro l
    unfold consumeNewline
    rw [(hkeep l).1, (hkeep l).2.1, (hkeep l).2.2]
    split
    case isTrue h => simpa using h
    case isFalse h => simpa using h
  · intro l tok l2 h
    unfold consumeNewline at h
    split at h
    case isTrue hc =>
        simp only [Prod.mk.injEq, Option.some.injEq] at h
        obtain ⟨h1, h2⟩ := h
        subst h1
        subst h2
        exact ⟨rfl, rfl⟩
    case isFalse hc => simp at h

theorem C9_newline_emission_conditions_witness :
    (consumeNewline { input := ['\n'], readPos := 0, ch := '\n', parenDepth := 0,
                      bracketDepth := 0, lastToken := .ident }).1 ≠ none :=
  (C9_newline_emission_conditions.1 _).mpr ⟨rfl, rfl, rfl⟩

/-! ## Cell-heap and frame-list helper lemmas -/

theorem cellAt_lt_length {cells : List Upvalue} {id : Nat} {u : Upvalue}
    (h : cellAt cells id = some u) : id < cells.length := by
  by_contra hge
  rw [cellAt, List.getElem?_eq_none (by omega)] at h
  exact Option.noConfusion h

theorem cellAt_append {cells : List Upvalue} (l : List Upvalue) {id : Nat} {u : Upvalue}
    (h : cellAt cells id = some u) : cellAt (cells ++ l) id = some u := by
  rw [cellAt, List.getElem?_append_left (cellAt_lt_length h)]
  exact h

theorem cellAt_concat_length (cells : List Upvalue) (u : Upvalue) :
    cellAt (cells ++ [u]) cells.length = some u := by
  rw [cellAt, List.getElem?_concat_length]

theorem cellAt_set_ne (cells : List Upvalue) (j : Nat) (w : Upvalue) (id : Nat)
    (h : id ≠ j) : cellAt (cells.set j w) id = cellAt cells id := by
  rw [cellAt, cellAt, List.getElem?_set_ne (fun he => h he.symm)]

theorem cellAt_set_self (cells : List Upvalue) (j : Nat) (w : Upvalue)
    (h : j < cells.length) : cellAt (cells.set j w) j = some w := by
  rw [cellAt, List.getElem?_set_self h]

theorem getD_set_self (l : List Value) (i : Nat) (v : Value)
    (h : i < l.length) : (l.set i v).getD i Value.vnull = v := by
  induction l generalizing i with
  | nil => simp at h
  | cons a t ih =>
      cases i with
      | zero => rfl
      | succ n =>
          simp only [List.set]
          have := ih n (by simpa using h)
          simpa [List.getD] using this

/-- Writing then reading the same modelled locals pointer yields the
written value (the first frame carrying the uid is both written and
read). -/
theorem framesRead_write (frames : List Frame) (uid slot : Nat) (v : Value)
    (fr : Frame) (hfind : frameWith frames uid = some fr)
    (hslot : slot < fr.locals.length) :
    framesRead (framesWrite frames uid slot v) uid slot = v := by
  induction frames with
  | nil => simp [frameWith] at hfind
  | cons f rest ih =>
      by_cases hu : f.uid = uid
      · have : fr = f := by
          rw [frameWith, List.find?_cons_of_pos _ (by simpa using hu)] at hfind
          exact (Option.some.injEq _ _ ▸ hfind).symm
        subst this
        rw [framesWrite, if_pos hu, framesRead, if_pos hu]
        exact getD_set_self _ _ _ hslot
      · rw [frameWith, List.find?_cons_of_neg _ (by simpa using hu)] at hfind
        rw [framesWrite, if_neg hu, framesRead, if_neg hu]
        exact ih hfind

theorem framesWrite_shape (frames : List Frame) (uid slot : Nat) (v : Value) :
    (framesWrite frames uid slot v).map frameShape = frames.map frameShape := by
  induction frames with
  | nil => rfl
  | cons f rest ih =>
      rw [framesWrite]
      split
      · simp [frameShape]
      · simpa using ih

theorem framesWrite_lastBase (frames : List Frame) (uid slot : Nat) (v : Value) :
    ((framesWrite frames uid slot v).getLast?).map Frame.base
      = (frames.getLast?).map Frame.base := by
  induction frames with
  | nil => rfl
  | cons f rest ih =>
      rw [framesWrite]
      split
      · cases rest <;> simp
      · cases hr : rest with
        | nil => simp [hr, framesWrite]
        | cons g gs =>
            rw [hr] at ih
            have hne : framesWrite (g :: gs) uid slot v ≠ [] := by
              rw [framesWrite]
              split <;> simp
            cases hw : framesWrite (g :: gs) uid slot v with
            | nil => exact absurd hw hne
            | cons w ws =>
                rw [hw] at ih
                rw [List.getLast?_cons_cons, List.getLast?_cons_cons]
                exact ih

/-! ## Upvalue-capture lemmas -/

theorem findOpen_mem_and_loc : ∀ (ids : List Nat) (cells : List Upvalue)
    (loc : Nat × Nat) (j : Nat), findOpen cells ids loc = some j →
    j ∈ ids ∧ ∃ u, cellAt cells j = some u ∧ u.location = some loc := by
  intro ids
  induction ids with
  | nil =>
      intro cells loc j h
      simp [findOpen] at h
  | cons id rest ih =>
      intro cells loc j h
      rw [findOpen] at h
      split at h
      next u heq =>
        split at h
        next hl =>
          cases h
          exact ⟨List.mem_cons_self _ _, u, heq, hl⟩
        next hl =>
          obtain ⟨hm, hrest⟩ := ih cells loc j h
          exact ⟨List.mem_cons_of_mem _ hm, hrest⟩
      next heq =>
        obtain ⟨hm, hrest⟩ := ih cells loc j h
        exact ⟨List.mem_cons_of_mem _ hm, hrest⟩

theorem findOpen_none : ∀ (ids : List Nat) (cells : List Upvalue) (loc : Nat × Nat),
    findOpen cells ids loc = none →
    ∀ id ∈ ids, ∀ u, cellAt cells id = some u → u.location ≠ some loc := by
  intro ids
  induction ids with
  | nil =>
      intro cells loc _ id hid
      simp at hid
  | cons id0 rest ih =>
      intro cells loc h id hid u hc
      rw [findOpen] at h
      rcases List.mem_cons.mp hid with hid0 | hidr
      · subst hid0
        intro hl
        simp only [hc, hl, if_pos] at h
        exact Option.noConfusion h
      · split at h
        next u2 heq =>
          split at h
          next => exact Option.noConfusion h
          next => exact ih cells loc h id hidr u hc
        next => exact ih cells loc h id hidr u hc

theorem findOpen_after_append : ∀ (ids : List Nat) (cells : List Upvalue)
    (loc : Nat × Nat) (u0 : Upvalue), u0.location = some loc →
    findOpen cells ids loc = none →
    findOpen (cells ++ [u0]) (ids ++ [cells.length]) loc = some cells.length := by
  intro ids
  induction ids with
  | nil =>
      intro cells loc u0 hl _
      rw [List.nil_append, findOpen]
      simp only [cellAt_concat_length, hl, if_pos]
  | cons id rest ih =>
      intro cells loc u0 hl h
      rw [findOpen] at h
      rw [List.cons_append, findOpen]
      cases hc : cellAt cells id with
      | some u =>
          simp only [hc] at h
          simp only [cellAt_append [u0] hc]
          split at h
          next => exact Option.noConfusion h
          next hne =>
            rw [if_neg hne]
            exact ih cells loc u0 hl h
      | none =>
          simp only [hc] at h
          have hge : cells.length ≤ id := by
            by_contra hlt
            rw [cellAt, List.getElem?_eq_getElem (by omega)] at hc
            exact Option.noConfusion hc
          by_cases heq : id = cells.length
          · subst heq
            simp only [cellAt_concat_length, hl, if_pos]
          · have hnone : cellAt (cells ++ [u0]) id = none := by
              rw [cellAt, List.getElem?_eq_none]
              simp only [List.length_append, List.length_cons, List.length_nil]
              omega
            simp only [hnone]
            exact ih cells loc u0 hl h

theorem captureUpvalue_found {s : VMState} {loc : Nat × Nat} {j : Nat}
    (h : findOpen s.cells s.openUpvalues loc = some j) :
    captureUpvalue s loc = (j, s) := by
  rw [captureUpvalue, h]

theorem captureUpvalue_notfound {s : VMState} {loc : Nat × Nat}
    (h : findOpen s.cells s.openUpvalues loc = none) :
    captureUpvalue s loc
      = (s.cells.length,
         { s with cells := s.cells ++ [⟨some loc, Value.vnull⟩],
                  openUpvalues := s.openUpvalues ++ [s.cells.length] }) := by
  rw [captureUpvalue, h]

/-! ## Closed cells stay closed -/

theorem closeCell_none (u : Upvalue) (frames : List Frame) :
    (closeCell u frames).location = none := by
  cases hl : u.location <;> simp [closeCell, hl]

theorem cellClosed_append (l : List Upvalue) {cells : List Upvalue} {id : Nat}
    (h : cellClosed cells id) : cellClosed (cells ++ l) id := by
  obtain ⟨u, hc, hl⟩ := h
  exact ⟨u, cellAt_append l hc, hl⟩

theorem cellClosed_set_none {cells : List Upvalue} {j : Nat} {w : Upvalue} {id : Nat}
    (hw : w.location = none) (h : cellClosed cells id) :
    cellClosed (cells.set j w) id := by
  obtain ⟨u, hc, hl⟩ := h
  by_cases hij : id = j
  · subst hij
    exact ⟨w, cellAt_set_self _ _ _ (cellAt_lt_length hc), hw⟩
  · refine ⟨u, ?_, hl⟩
    rw [cellAt_set_ne _ _ _ _ hij]
    exact hc

theorem cellClosed_closeLoop : ∀ (ids : List Nat) (cells : List Upvalue)
    (frames : List Frame) (uid n id : Nat), cellClosed cells id →
    cellClosed (closeLoop ids cells frames uid n).2 id := by
  intro ids
  induction ids with
  | nil => intro cells frames uid n id h; exact h
  | cons j rest ih =>
      intro cells frames uid n id h
      rw [closeLoop]
      split
      · split
        next u heq => exact ih _ frames uid n id (cellClosed_set_none (closeCell_none u frames) h)
        next => exact ih _ frames uid n id h
      · exact ih cells frames uid n id h

theorem cellClosed_closeUpvalues {s : VMState} {uid n id : Nat}
    (h : cellClosed s.cells id) : cellClosed (closeUpvalues s uid n).cells id := by
  rw [closeUpvalues]
  split
  · exact h
  · exact cellClosed_closeLoop _ _ _ _ _ _ h

theorem cellClosed_capture {s : VMState} {loc : Nat × Nat} {id : Nat}
    (h : cellClosed s.cells id) : cellClosed (captureUpvalue s loc).2.cells id := by
  cases hf : findOpen s.cells s.openUpvalues loc with
  | some j => rw [captureUpvalue_found hf]; exact h
  | none => rw [captureUpvalue_notfound hf]; exact cellClosed_append _ h

theorem cellClosed_uvSet {s : VMState} {entry : Option Nat} {v : Value} {id : Nat}
    (h : cellClosed s.cells id) : cellClosed (uvSet s entry v).cells id := by
  unfold uvSet
  split
  · exact h
  · split
    · exact h
    · split
      · exact h
      · next u heq hloc => exact cellClosed_set_none (by simpa using hloc) h

theorem cellClosed_closureUps : ∀ (n : Nat) (code : List Nat) (fr : Frame)
    (s : VMState) (acc : List (Option Nat)) (ip id : Nat), cellClosed s.cells id →
    ∀ r, closureUps code n fr s acc ip = r →
      (∀ ups s2 ip2, r = .ok ups s2 ip2 → cellClosed s2.cells id) ∧
      (∀ m s2 ip2, r = .err m s2 ip2 → cellClosed s2.cells id) := by
  intro n
  induction n with
  | zero =>
      intro code fr s acc ip id h r hr
      rw [closureUps] at hr
      subst hr
      constructor
      · intro ups s2 ip2 he
        cases he
        exact h
      · intro m s2 ip2 he
        exact UpsResult.noConfusion he
  | succ m ih =>
      intro code fr s acc ip id h r hr
      rw [closureUps] at hr
      split at hr
      · split at hr
        · subst hr
          constructor
          · intro ups s2 ip2 he
            exact UpsResult.noConfusion he
          · intro m2 s2 ip2 he
            cases he
            exact h
        · exact ih code fr _ _ _ id (cellClosed_capture h) r hr
      · split at hr
        · subst hr
          constructor
          · intro ups s2 ip2 he
            exact UpsResult.noConfusion he
          · intro m2 s2 ip2 he
            cases he
            exact h
        · exact ih code fr _ _ _ id h r hr

theorem pushFrame_ok {s : VMState} {f : FuncVal} {s2 : VMState}
    (h : pushFrame s f = .ok s2) :
    s2 = { s with
             frames := { fn := f, ip := 0,
                         locals := List.replicate (maxLocals f) Value.vnull,
                         base := s.stack.length, lastOp := -1,
                         uid := s.nextUid } :: s.frames,
             nextUid := s.nextUid + 1 } := by
  unfold pushFrame at h
  split at h
  · exact Except.noConfusion h
  · split at h
    · exact Except.noConfusion h
    · cases h
      rfl

theorem cellClosed_finishFrame {s : VMState} {ret : Value} {id : Nat}
    (h : cellClosed s.cells id) :
    cellClosed (outState (finishFrame s ret)).cells id := by
  rw [finishFrame]
  split
  · exact h
  · split
    · exact cellClosed_closeUpvalues h
    · exact cellClosed_closeUpvalues h

theorem cellClosed_setHeadLocals {s : VMState} {args : List Value} {id : Nat}
    (h : cellClosed s.cells id) : cellClosed (setHeadLocals s args).cells id := by
  rw [setHeadLocals]
  split
  · exact h
  · exact h

set_option maxHeartbeats 1000000 in
theorem execOp_closed_mono (op : Nat) (proto : Prototype) (fr : Frame)
    (rest : List Frame) (s : VMState) (id : Nat) (h : cellClosed s.cells id) :
    cellClosed (outState (execOp op proto fr rest s)).cells id := by
  unfold execOp opSetGlobal opDefineGlobal
  dsimp only
  by_cases h1 : op = OP_NOP ∨ op = OP_DEBUG
  · rw [if_pos h1]; exact h
  rw [if_neg h1]
  by_cases h2 : op = OP_CONST
  · rw [if_pos h2]; exact h
  rw [if_neg h2]
  by_cases h3 : op = OP_NULL
  · rw [if_pos h3]; exact h
  rw [if_neg h3]
  by_cases h4 : op = OP_TRUE
  · rw [if_pos h4]; exact h
  rw [if_neg h4]
  by_cases h5 : op = OP_FALSE
  · rw [if_pos h5]; exact h
  rw [if_neg h5]
  by_cases h6 : op = OP_POP
  · rw [if_pos h6]; exact h
  rw [if_neg h6]
  by_cases h7 : op = OP_ADD ∨ op = OP_SUB ∨ op = OP_MUL ∨ op = OP_DIV ∨
      op = OP_EQ ∨ op = OP_NEQ ∨ op = OP_LT ∨ op = OP_LTE ∨
      op = OP_GT ∨ op = OP_GTE
  · rw [if_pos h7]; split <;> exact h
  rw [if_neg h7]
  by_cases h8 : op = OP_NEG
  · rw [if_pos h8]; split <;> exact h
  rw [if_neg h8]
  by_cases h9 : op = OP_NOT
  · rw [if_pos h9]; exact h
  rw [if_neg h9]
  by_cases h10 : op = OP_AND
  · rw [if_pos h10]; exact h
  rw [if_neg h10]
  by_cases h11 : op = OP_OR
  · rw [if_pos h11]; exact h
  rw [if_neg h11]
  by_cases h12 : op = OP_GET_LOCAL
  · rw [if_pos h12]; split <;> exact h
  rw [if_neg h12]
  by_cases h13 : op = OP_SET_LOCAL
  · rw [if_pos h13]; split <;> exact h
  rw [if_neg h13]
  by_cases h14 : op = OP_GET_UPVALUE
  · rw [if_pos h14]; split <;> exact h
  rw [if_neg h14]
  by_cases h15 : op = OP_SET_UPVALUE
  · rw [if_pos h15]
    split
    · exact h
    · exact cellClosed_uvSet h
  rw [if_neg h15]
  by_cases h16 : op = OP_GET_GLOBAL
  · rw [if_pos h16]; repeat' split
    all_goals exact h
  rw [if_neg h16]
  by_cases h17 : op = OP_SET_GLOBAL
  · rw [if_pos h17]; split <;> exact h
  rw [if_neg h17]
  by_cases h18 : op = OP_DEFINE_GLOBAL
  · rw [if_pos h18]; split <;> exact h
  rw [if_neg h18]
  by_cases h19 : op = OP_ARRAY
  · rw [if_pos h19]; exact h
  rw [if_neg h19]
  by_cases h20 : op = OP_RANGE
  · rw [if_pos h20]; repeat' split
    all_goals exact h
  rw [if_neg h20]
  by_cases h21 : op = OP_INDEX_GET
  · rw [if_pos h21]; split <;> exact h
  rw [if_neg h21]
  by_cases h22 : op = OP_JUMP
  · rw [if_pos h22]; exact h
  rw [if_neg h22]
  by_cases h23 : op = OP_JUMP_IF_FALSE
  · rw [if_pos h23]; exact h
  rw [if_neg h23]
  by_cases h24 : op = OP_JUMP_IF_TRUE
  · rw [if_pos h24]; exact h
  rw [if_neg h24]
  by_cases h25 : op = OP_CALL
  · rw [if_pos h25]
    split
    · exact h
    · split
      · split
        · exact h
        · rename_i s2 heq
          have h2 : cellClosed s2.cells id := by
            rw [pushFrame_ok heq]; exact h
          exact cellClosed_setHeadLocals h2
      · exact h
  rw [if_neg h25]
  by_cases h26 : op = OP_RETURN
  · rw [if_pos h26]
    split <;> exact cellClosed_finishFrame h
  rw [if_neg h26]
  by_cases h27 : op = OP_CLOSURE
  · rw [if_pos h27]
    split
    · split
      · rename_i m s2 ip2 heq
        have h2 : cellClosed ({ s with
            frames := { fr with ip := fr.ip + 3 } :: rest } : VMState).cells id := h
        exact ((cellClosed_closureUps _ _ _ _ _ _ id h2 _ heq).2 m s2 ip2 rfl)
      · rename_i ups s2 ip2 heq
        have h2 : cellClosed ({ s with
            frames := { fr with ip := fr.ip + 3 } :: rest } : VMState).cells id := h
        exact ((cellClosed_closureUps _ _ _ _ _ _ id h2 _ heq).1 ups s2 ip2 rfl)
    · exact h
  rw [if_neg h27]
  exact h

theorem step_closed_mono {s : VMState} {id : Nat} (h : cellClosed s.cells id) :
    cellClosed (outState (step s)).cells id := by
  rw [step]
  split
  · exact h
  · dsimp only
    split
    · exact h
    · split
      · exact cellClosed_finishFrame h
      · split
        · exact h
        · apply execOp_closed_mono
          exact h

theorem runLoop_closed_mono : ∀ (fuel : Nat) (s : VMState) (id : Nat),
    cellClosed s.cells id → cellClosed (runState (runLoop fuel s)).cells id := by
  intro fuel
  induction fuel with
  | zero => intro s id h; exact h
  | succ n ih =>
      intro s id h
      rw [runLoop]
      split
      · exact h
      · have hs := step_closed_mono h
        split
        next s2 heq =>
          rw [heq] at hs
          exact ih s2 id hs
        next v s2 heq =>
          rw [heq] at hs
          exact hs
        next e s2 heq =>
          rw [heq] at hs
          exact hs

/-- C7: closure capture shares cells, and a cell closes at most once and
never reopens.  (1) When the open-upvalue scan finds a cell already
referencing the captured local address, `captureUpvalue` returns that
listed open cell and leaves the state unchanged.  (2) Capturing the same
address again yields the same cell id, so two closures capturing the same
variable share one cell.  (3) A write through the shared cell is observed
by a read through it.  (4) Closing an already-closed cell is the identity.
(5)/(6) A closed cell stays closed across one dispatch step and across a
whole run: the open→closed transition never reverses. -/
theorem C7_capture_sharing_and_close_once :
    (∀ (s : VMState) (loc : Nat × Nat) (j : Nat),
        findOpen s.cells s.openUpvalues loc = some j →
        captureUpvalue s loc = (j, s) ∧ j ∈ s.openUpvalues ∧
          ∃ u, cellAt s.cells j = some u ∧ u.location = some loc) ∧
    (∀ (s : VMState) (loc : Nat × Nat) (j1 : Nat) (s1 : VMState),
        captureUpvalue s loc = (j1, s1) →
        (captureUpvalue s1 loc).1 = j1) ∧
    (∀ (s : VMState) (j : Nat) (u : Upvalue) (uid slot : Nat) (v : Value)
        (fr : Frame),
        cellAt s.cells j = some u → u.location = some (uid, slot) →
        frameWith s.frames uid = some fr → slot < fr.locals.length →
        uvGet (uvSet s (some j) v) (some j) = v) ∧
    (∀ (u : Upvalue) (frames : List Frame),
        u.location = none → closeCell u frames = u) ∧
    (∀ (s : VMState) (id : Nat), cellClosed s.cells id →
        cellClosed (outState (step s)).cells id) ∧
    (∀ (fuel : Nat) (s : VMState) (id : Nat), cellClosed s.cells id →
        cellClosed (runState (runLoop fuel s)).cells id) := by
  refine ⟨?_, ?_, ?_, ?_, ?_, ?_⟩
  · intro s loc j hf
    exact ⟨captureUpvalue_found hf,
           (findOpen_mem_and_loc s.openUpvalues s.cells loc j hf).1,
           (findOpen_mem_and_loc s.openUpvalues s.cells loc j hf).2⟩
  · intro s loc j1 s1 hcap
    cases hf : findOpen s.cells s.openUpvalues loc with
    | some j =>
        rw [captureUpvalue_found hf] at hcap
        injection hcap with h1 h2
        subst h1; subst h2
        rw [captureUpvalue_found hf]
    | none =>
        rw [captureUpvalue_notfound hf] at hcap
        injection hcap with h1 h2
        subst h1; subst h2
        have hf2 : findOpen (s.cells ++ [⟨some loc, Value.vnull⟩])
            (s.openUpvalues ++ [s.cells.length]) loc = some s.cells.length :=
          findOpen_after_append s.openUpvalues s.cells loc _ rfl hf
        simp only [captureUpvalue]
        rw [hf2]
  · intro s j u uid slot v fr hc hl hfind hslot
    simp only [uvSet, hc, hl]
    simp only [uvGet, hc, hl]
    exact framesRead_write s.frames uid slot v fr hfind hslot
  · intro u frames hl
    simp only [closeCell, hl]
  · exact fun s id h => step_closed_mono h
  · exact runLoop_closed_mono

theorem C7_capture_sharing_and_close_once_witness :
    captureUpvalue upvState (5, 0) = (0, upvState) ∧
    uvGet (uvSet upvState (some 0) (Value.vnum 9)) (some 0) = Value.vnum 9 ∧
    closeCell ⟨none, Value.vnum 7⟩ [] = ⟨none, Value.vnum 7⟩ ∧
    cellClosed (runState (runLoop 5 upvState)).cells 1 :=
  ⟨(C7_capture_sharing_and_close_once.1 upvState (5, 0) 0 (by rfl)).1,
   C7_capture_sharing_and_close_once.2.2.1 upvState 0 ⟨some (5, 0), Value.vnull⟩
     5 0 (Value.vnum 9) upvFrame (by rfl) (by rfl) (by rfl) (by decide),
   C7_capture_sharing_and_close_once.2.2.2.1 ⟨none, Value.vnum 7⟩ [] (by rfl),
   C7_capture_sharing_and_close_once.2.2.2.2.2 5 upvState 1
     ⟨⟨none, Value.vnum 7⟩, by rfl, by rfl⟩⟩

theorem copyArgs_length (locals args : List Value) :
    (copyArgs locals args).length = locals.length := by
  simp only [copyArgs, List.length_append, List.length_take, List.length_drop]
  omega

theorem ownedBy_congr {cells cells2 : List Upvalue} {id : Nat} (uid n : Nat)
    (h : cellAt cells2 id = cellAt cells id) :
    ownedBy cells2 uid n id = ownedBy cells uid n id := by
  rw [ownedBy, ownedBy, h]

theorem ownedBy_true {cells : List Upvalue} {id : Nat} {u : Upvalue}
    {uid slot n : Nat} (hc : cellAt cells id = some u)
    (hl : u.location = some (uid, slot)) (hs : slot < n) :
    ownedBy cells uid n id = true := by
  simp only [ownedBy, hc, hl]
  simp [hs]

theorem closeLoop_sublist : ∀ (ids : List Nat) (cells : List Upvalue)
    (frames : List Frame) (uid n : Nat),
    (closeLoop ids cells frames uid n).1.Sublist ids := by
  intro ids
  induction ids with
  | nil => intro cells frames uid n; exact List.Sublist.refl _
  | cons id rest ih =>
      intro cells frames uid n
      rw [closeLoop]
      dsimp only
      split
      · exact (ih _ frames uid n).cons id
      · cases hcl : closeLoop rest cells frames uid n with
        | mk kept cells2 =>
            have hk := ih cells frames uid n
            rw [hcl] at hk
            exact hk.cons₂ id

theorem closeLoop_outside : ∀ (ids : List Nat) (cells : List Upvalue)
    (frames : List Frame) (uid n j : Nat), j ∉ ids →
    cellAt (closeLoop ids cells frames uid n).2 j = cellAt cells j := by
  intro ids
  induction ids with
  | nil => intro cells frames uid n j _; rfl
  | cons id rest ih =>
      intro cells frames uid n j hj
      have hjid : j ≠ id := fun he => hj (he ▸ List.mem_cons_self id rest)
      have hjrest : j ∉ rest := fun hm => hj (List.mem_cons_of_mem id hm)
      rw [closeLoop]
      dsimp only
      split
      · rw [ih _ frames uid n j hjrest]
        split
        next u heq => exact cellAt_set_ne cells id _ j hjid
        next => rfl
      · cases hcl : closeLoop rest cells frames uid n with
        | mk kept cells2 =>
            have hk := ih cells frames uid n j hjrest
            rw [hcl] at hk
            exact hk

theorem closeLoop_kept : ∀ (ids : List Nat) (cells : List Upvalue)
    (frames : List Frame) (uid n : Nat), ids.Nodup →
    ∀ j ∈ (closeLoop ids cells frames uid n).1,
      ownedBy cells uid n j = false ∧
      cellAt (closeLoop ids cells frames uid n).2 j = cellAt cells j := by
  intro ids
  induction ids with
  | nil => intro cells frames uid n _ j hj; simp [closeLoop] at hj
  | cons id rest ih =>
      intro cells frames uid n hnd j hj
      have hid : id ∉ rest := (List.nodup_cons.mp hnd).1
      have hrest : rest.Nodup := (List.nodup_cons.mp hnd).2
      rw [closeLoop] at hj ⊢
      dsimp only at hj ⊢
      split at hj
      next howned =>
        rw [if_pos howned]
        have hjrest : j ∈ rest :=
          (closeLoop_sublist rest _ frames uid n).mem hj
        have hjid : j ≠ id := fun he => hid (he ▸ hjrest)
        have hsame : cellAt (match cellAt cells id with
            | some u => cells.set id (closeCell u frames)
            | none => cells) j = cellAt cells j := by
          split
          next u heq => exact cellAt_set_ne cells id _ j hjid
          next => rfl
        obtain ⟨h1, h2⟩ := ih _ frames uid n hrest j hj
        refine ⟨?_, by rw [h2, hsame]⟩
        rw [← ownedBy_congr uid n hsame]
        exact h1
      next howned =>
        rw [if_neg howned]
        cases hcl : closeLoop rest cells frames uid n with
        | mk kept cells2 =>
            rw [hcl] at hj
            dsimp only at hj
            rcases List.mem_cons.mp hj with hje | hjk
            · subst hje
              refine ⟨Bool.not_eq_true _ ▸ howned, ?_⟩
              have hout := closeLoop_outside rest cells frames uid n j hid
              rw [hcl] at hout
              exact hout
            · obtain ⟨h1, h2⟩ := ih cells frames uid n hrest j (by rw [hcl]; exact hjk)
              rw [hcl] at h2
              exact ⟨h1, h2⟩

theorem closeLoop_allowned : ∀ (ids : List Nat) (cells : List Upvalue)
    (frames : List Frame) (uid n : Nat), ids.Nodup →
    (∀ id ∈ ids, ownedBy cells uid n id = true) →
    (closeLoop ids cells frames uid n).1 = [] := by
  intro ids
  induction ids with
  | nil => intro cells frames uid n _ _; rfl
  | cons id rest ih =>
      intro cells frames uid n hnd hall
      have hid : id ∉ rest := (List.nodup_cons.mp hnd).1
      rw [closeLoop]
      dsimp only
      rw [if_pos (hall id (List.mem_cons_self id rest))]
      apply ih _ frames uid n (List.nodup_cons.mp hnd).2
      intro j hj
      have hjid : j ≠ id := fun he => hid (he ▸ hj)
      have hsame : cellAt (match cellAt cells id with
          | some u => cells.set id (closeCell u frames)
          | none => cells) j = cellAt cells j := by
        split
        next u heq => exact cellAt_set_ne cells id _ j hjid
        next => rfl
      rw [ownedBy_congr uid n hsame]
      exact hall j (List.mem_cons_of_mem id hj)

theorem liveSlot_congr {frames frames2 : List Frame}
    (h : frames2.map frameShape = frames.map frameShape) {uid slot : Nat}
    (hl : liveSlot frames uid slot) : liveSlot frames2 uid slot := by
  obtain ⟨f, hf, huid, hslot⟩ := hl
  have hm : frameShape f ∈ frames2.map frameShape := by
    rw [h]
    exact List.mem_map_of_mem frameShape hf
  obtain ⟨g, hg, hge⟩ := List.mem_map.mp hm
  refine ⟨g, hg, ?_, ?_⟩
  · have : g.uid = f.uid := congrArg Prod.fst hge
    rw [this, huid]
  · have : g.locals.length = f.locals.length := congrArg Prod.snd hge
    rw [this]
    exact hslot

theorem lastBase_cons (a b : Frame) (rest : List Frame) (hab : a.base = b.base) :
    ((a :: rest).getLast?).map Frame.base = ((b :: rest).getLast?).map Frame.base := by
  cases rest with
  | nil => simp [hab]
  | cons c cs => rw [List.getLast?_cons_cons, List.getLast?_cons_cons]

theorem inv_transport {s s2 : VMState} (hinv : Inv s)
    (hcells : s2.cells = s.cells) (hups : s2.openUpvalues = s.openUpvalues)
    (hshape : s2.frames.map frameShape = s.frames.map frameShape)
    (hlast : (s2.frames.getLast?).map Frame.base
      = (s.frames.getLast?).map Frame.base)
    (hne : s2.frames ≠ []) : Inv s2 := by
  obtain ⟨hA, hB, hC, hD⟩ := hinv
  refine ⟨hne, ?_, by rw [hups]; exact hC, ?_⟩
  · intro f hf
    have h1 : (s.frames.getLast?).map Frame.base = some f.base := by
      rw [← hlast, hf]
      rfl
    cases hg : s.frames.getLast? with
    | none => rw [hg] at h1; exact Option.noConfusion h1
    | some g =>
        rw [hg] at h1
        have h2 : g.base = f.base := by
          simpa using h1
        rw [← h2]
        exact hB g hg
  · intro id hid
    rw [hups] at hid
    obtain ⟨u, hc, uid, slot, hl, hls⟩ := hD id hid
    refine ⟨u, ?_, uid, slot, hl, liveSlot_congr hshape hls⟩
    rw [hcells]
    exact hc

theorem inv_replace_head {s : VMState} {fr fr2 : Frame} {rest : List Frame}
    (hinv : Inv s) (hfr : s.frames = fr :: rest)
    (hshape : frameShape fr2 = frameShape fr) (hbase : fr2.base = fr.base)
    {s2 : VMState} (hcells : s2.cells = s.cells)
    (hups : s2.openUpvalues = s.openUpvalues)
    (hfr2 : s2.frames = fr2 :: rest) : Inv s2 := by
  apply inv_transport hinv hcells hups
  · rw [hfr2, hfr, List.map_cons, List.map_cons, hshape]
  · rw [hfr2, hfr]
    exact lastBase_cons _ _ _ hbase
  · rw [hfr2]
    exact List.cons_ne_nil _ _

theorem inv_push {s : VMState} (hinv : Inv s) (nf : Frame) (m : Nat)
    (hne : s.frames ≠ []) :
    Inv { s with frames := nf :: s.frames, nextUid := m } := by
  obtain ⟨hA, hB, hC, hD⟩ := hinv
  refine ⟨List.cons_ne_nil _ _, ?_, hC, ?_⟩
  · intro f hf
    cases hfr : s.frames with
    | nil => exact absurd hfr hne
    | cons g gs =>
        rw [hfr] at hf
        rw [List.getLast?_cons_cons] at hf
        apply hB f
        rw [hfr]
        exact hf
  · intro id hid
    obtain ⟨u, hc, uid, slot, hl, f, hf, huid, hslot⟩ := hD id hid
    exact ⟨u, hc, uid, slot, hl, f, List.mem_cons_of_mem nf hf, huid, hslot⟩

theorem uvSet_inv {s : VMState} {entry : Option Nat} {v : Value}
    (hinv : Inv s) : Inv (uvSet s entry v) := by
  cases entry with
  | none => exact hinv
  | some id =>
      unfold uvSet
      cases hc : cellAt s.cells id with
      | none => simp only [hc]; exact hinv
      | some u =>
          simp only [hc]
          cases hl : u.location with
          | some loc =>
              simp only [hl]
              refine inv_transport hinv rfl rfl ?_ ?_ ?_
              · exact framesWrite_shape s.frames loc.1 loc.2 v
              · exact framesWrite_lastBase s.frames loc.1 loc.2 v
              · intro hnil
                apply hinv.1
                have hnil2 : framesWrite s.frames loc.1 loc.2 v = [] := hnil
                have hsh := framesWrite_shape s.frames loc.1 loc.2 v
                rw [hnil2] at hsh
                exact List.map_eq_nil_iff.mp hsh.symm
          | none =>
              simp only [hl]
              obtain ⟨hA, hB, hC, hD⟩ := hinv
              refine ⟨hA, hB, hC, ?_⟩
              intro id2 hid2
              obtain ⟨u2, hc2, uid2, slot2, hl2, hls2⟩ := hD id2 hid2
              by_cases he : id2 = id
              · subst he
                rw [hc] at hc2
                injection hc2 with hu
                subst hu
                rw [hl] at hl2
                exact Option.noConfusion hl2
              · exact ⟨u2, (cellAt_set_ne s.cells id _ id2 he).trans hc2,
                       uid2, slot2, hl2, hls2⟩

theorem finishFrame_inv {s : VMState} {fr : Frame} {rest : List Frame}
    (ret : Value) (hfr : s.frames = fr :: rest) (hinv : Inv s) :
    InvPost (finishFrame s ret) := by
  obtain ⟨hA, hB, hC, hD⟩ := hinv
  rw [finishFrame, hfr]
  cases rest with
  | nil =>
      dsimp only
      refine ⟨?_, ?_⟩
      · have hbase : fr.base = 0 := hB fr (by rw [hfr]; simp)
        rw [hbase]
        simp
      · show (closeUpvalues s fr.uid fr.locals.length).openUpvalues = []
        by_cases hn : fr.locals.length = 0
        · rw [closeUpvalues, if_pos hn]
          apply List.eq_nil_iff_forall_not_mem.mpr
          intro id hid
          obtain ⟨u, hc, uid2, slot, hl, f, hfmem, huid, hslot⟩ := hD id hid
          rw [hfr] at hfmem
          have hffr : f = fr := by simpa using hfmem
          subst hffr
          omega
        · rw [closeUpvalues, if_neg hn]
          dsimp only
          apply closeLoop_allowned _ _ _ _ _ hC
          intro id hid
          obtain ⟨u, hc, uid2, slot, hl, f, hfmem, huid, hslot⟩ := hD id hid
          rw [hfr] at hfmem
          have hffr : f = fr := by simpa using hfmem
          subst hffr
          rw [← huid] at hl
          exact ownedBy_true hc hl hslot
  | cons g gs =>
      dsimp only
      by_cases hn : fr.locals.length = 0
      · have hcu : closeUpvalues s fr.uid fr.locals.length = s := by
          rw [closeUpvalues, if_pos hn]
        rw [hcu]
        refine ⟨List.cons_ne_nil _ _, ?_, hC, ?_⟩
        · intro f hf
          apply hB f
          rw [hfr, List.getLast?_cons_cons]
          exact hf
        · intro id hid
          obtain ⟨u, hc, uid2, slot, hl, f, hfmem, huid, hslot⟩ := hD id hid
          refine ⟨u, hc, uid2, slot, hl, ?_⟩
          rw [hfr] at hfmem
          rcases List.mem_cons.mp hfmem with he | hmem2
          · subst he
            omega
          · exact ⟨f, hmem2, huid, hslot⟩
      · have hcu : closeUpvalues s fr.uid fr.locals.length
            = { s with
                openUpvalues := (closeLoop s.openUpvalues s.cells s.frames
                  fr.uid fr.locals.length).1,
                cells := (closeLoop s.openUpvalues s.cells s.frames
                  fr.uid fr.locals.length).2 } := by
          rw [closeUpvalues, if_neg hn]
        rw [hcu]
        refine ⟨List.cons_ne_nil _ _, ?_, ?_, ?_⟩
        · intro f hf
          apply hB f
          rw [hfr, List.getLast?_cons_cons]
          exact hf
        · exact (closeLoop_sublist _ _ _ _ _).nodup hC
        · intro id hid
          have hid2 : id ∈ (closeLoop s.openUpvalues s.cells s.frames
              fr.uid fr.locals.length).1 := hid
          have hmem : id ∈ s.openUpvalues :=
            (closeLoop_sublist _ _ _ _ _).mem hid2
          obtain ⟨hOwn, hCell⟩ := closeLoop_kept s.openUpvalues s.cells s.frames
            fr.uid fr.locals.length hC id hid2
          obtain ⟨u, hc, uid2, slot, hl, f, hfmem, huid, hslot⟩ := hD id hmem
          refine ⟨u, hCell.trans hc, uid2, slot, hl, ?_⟩
          rw [hfr] at hfmem
          rcases List.mem_cons.mp hfmem with he | hmem2
          · exfalso
            subst he
            rw [← huid] at hl
            have htrue := ownedBy_true hc hl hslot
            rw [hOwn] at htrue
            exact Bool.noConfusion htrue
          · exact ⟨f, hmem2, huid, hslot⟩

theorem captureUpvalue_inv {s : VMState} {uid slot : Nat}
    (hinv : Inv s) (hlive : liveSlot s.frames uid slot) :
    Inv (captureUpvalue s (uid, slot)).2 ∧
    (captureUpvalue s (uid, slot)).2.frames = s.frames := by
  cases hf : findOpen s.cells s.openUpvalues (uid, slot) with
  | some j =>
      rw [captureUpvalue_found hf]
      exact ⟨hinv, rfl⟩
  | none =>
      rw [captureUpvalue_notfound hf]
      obtain ⟨hA, hB, hC, hD⟩ := hinv
      refine ⟨⟨hA, hB, ?_, ?_⟩, rfl⟩
      · show (s.openUpvalues ++ [s.cells.length]).Nodup
        rw [List.nodup_append]
        refine ⟨hC, List.nodup_singleton _, ?_⟩
        intro a ha hb
        have hae : a = s.cells.length := by simpa using hb
        subst hae
        obtain ⟨u, hc, _⟩ := hD _ ha
        exact absurd (cellAt_lt_length hc) (lt_irrefl _)
      · intro id hid
        have hid2 : id ∈ s.openUpvalues ++ [s.cells.length] := hid
        rcases List.mem_append.mp hid2 with hmem | hnew
        · obtain ⟨u, hc, uid2, slot2, hl, hls⟩ := hD id hmem
          exact ⟨u, cellAt_append _ hc, uid2, slot2, hl, hls⟩
        · have hide : id = s.cells.length := by simpa using hnew
          subst hide
          exact ⟨⟨some (uid, slot), Value.vnull⟩, cellAt_concat_length _ _,
                 uid, slot, rfl, hlive⟩

theorem closureUps_inv : ∀ (n : Nat) (code : List Nat) (fr : Frame)
    (s : VMState) (acc : List (Option Nat)) (ip : Nat), Inv s →
    fr ∈ s.frames →
    ∀ ups s2 ip2, closureUps code n fr s acc ip = .ok ups s2 ip2 →
      Inv s2 ∧ s2.frames = s.frames := by
  intro n
  induction n with
  | zero =>
      intro code fr s acc ip hinv hmem ups s2 ip2 h
      rw [closureUps] at h
      injection h with h1 h2 h3
      subst h2
      exact ⟨hinv, rfl⟩
  | succ m ih =>
      intro code fr s acc ip hinv hmem ups s2 ip2 h
      rw [closureUps] at h
      dsimp only at h
      split at h
      · split at h
        · exact UpsResult.noConfusion h
        · next hslot =>
            have hlt : byteAt code (ip + 1) < fr.locals.length := by omega
            have hcap := captureUpvalue_inv hinv ⟨fr, hmem, rfl, hlt⟩
            have hmem2 : fr ∈ (captureUpvalue s (fr.uid, byteAt code (ip + 1))).2.frames := by
              rw [hcap.2]
              exact hmem
            obtain ⟨hi2, hf2⟩ := ih code fr _ _ _ hcap.1 hmem2 ups s2 ip2 h
            exact ⟨hi2, by rw [hf2, hcap.2]⟩
      · split at h
        · exact UpsResult.noConfusion h
        · exact ih code fr s _ _ hinv hmem ups s2 ip2 h

theorem setHeadLocals_inv {s : VMState} {nf : Frame} {r : List Frame}
    (args : List Value) (hfr : s.frames = nf :: r) (hinv : Inv s) :
    Inv (setHeadLocals s args) := by
  have hres : Inv { s with frames :=
      { nf with locals := copyArgs nf.locals args } :: r } := by
    refine inv_transport hinv rfl rfl ?_ ?_ ?_
    · rw [hfr]
      simp [frameShape, copyArgs_length]
    · rw [hfr]
      exact lastBase_cons _ _ _ rfl
    · exact List.cons_ne_nil _ _
  rw [setHeadLocals, hfr]
  exact hres

theorem inv_ok_frames {s : VMState} {fr : Frame} {rest : List Frame}
    (hinv : Inv s) (hfr : s.frames = fr :: rest) (fr2 : Frame) (st : List Value)
    (g : List (String × Value)) (ic : Nat)
    (hshape : frameShape fr2 = frameShape fr) (hbase : fr2.base = fr.base) :
    Inv { s with frames := fr2 :: rest, stack := st, globals := g,
                 instCount := ic } := by
  refine inv_transport hinv rfl rfl ?_ ?_ ?_
  · show List.map frameShape (fr2 :: rest) = List.map frameShape s.frames
    rw [hfr, List.map_cons, List.map_cons, hshape]
  · show ((fr2 :: rest).getLast?).map Frame.base
      = (s.frames.getLast?).map Frame.base
    rw [hfr]
    exact lastBase_cons _ _ _ hbase
  · exact List.cons_ne_nil _ _

theorem call_inv {s : VMState} {fr : Frame} {rest : List Frame}
    (hinv : Inv s) (hfr : s.frames = fr :: rest) (fr2 : Frame)
    (hshape : frameShape fr2 = frameShape fr) (hbase : fr2.base = fr.base)
    (st : List Value) (f : FuncVal) {s2 : VMState}
    (hpush : pushFrame { s with frames := fr2 :: rest, stack := st } f = .ok s2)
    (args : List Value) : Inv (setHeadLocals s2 args) := by
  have hs2 := pushFrame_ok hpush
  have hmid : Inv { s with frames := fr2 :: rest, stack := st } :=
    inv_ok_frames hinv hfr fr2 st s.globals s.instCount hshape hbase
  have hinvpush : Inv s2 := by
    rw [hs2]
    exact inv_push hmid _ _ (List.cons_ne_nil _ _)
  have hfr3 : s2.frames
      = ({ fn := f, ip := 0,
           locals := List.replicate (maxLocals f) Value.vnull,
           base := st.length, lastOp := -1,
           uid := s.nextUid } : Frame) :: fr2 :: rest := by
    rw [hs2]
  exact setHeadLocals_inv args hfr3 hinvpush

set_option maxHeartbeats 1000000 in
theorem execOp_inv (op : Nat) (proto : Prototype) (fr : Frame)
    (rest : List Frame) (s : VMState) (hinv : Inv s)
    (hfr : s.frames = fr :: rest) :
    InvPost (execOp op proto fr rest s) := by
  unfold execOp opSetGlobal opDefineGlobal
  dsimp only
  by_cases h1 : op = OP_NOP ∨ op = OP_DEBUG
  · rw [if_pos h1]; exact hinv
  rw [if_neg h1]
  by_cases h2 : op = OP_CONST
  · rw [if_pos h2]
    exact inv_ok_frames hinv hfr { fr with ip := fr.ip + 2 } _ _ _ rfl rfl
  rw [if_neg h2]
  by_cases h3 : op = OP_NULL
  · rw [if_pos h3]; exact hinv
  rw [if_neg h3]
  by_cases h4 : op = OP_TRUE
  · rw [if_pos h4]; exact hinv
  rw [if_neg h4]
  by_cases h5 : op = OP_FALSE
  · rw [if_pos h5]; exact hinv
  rw [if_neg h5]
  by_cases h6 : op = OP_POP
  · rw [if_pos h6]; exact hinv
  rw [if_neg h6]
  by_cases h7 : op = OP_ADD ∨ op = OP_SUB ∨ op = OP_MUL ∨ op = OP_DIV ∨
      op = OP_EQ ∨ op = OP_NEQ ∨ op = OP_LT ∨ op = OP_LTE ∨
      op = OP_GT ∨ op = OP_GTE
  · rw [if_pos h7]
    split
    · exact trivial
    · exact hinv
  rw [if_neg h7]
  by_cases h8 : op = OP_NEG
  · rw [if_pos h8]
    split
    · exact hinv
    · exact trivial
  rw [if_neg h8]
  by_cases h9 : op = OP_NOT
  · rw [if_pos h9]; exact hinv
  rw [if_neg h9]
  by_cases h10 : op = OP_AND
  · rw [if_pos h10]; exact hinv
  rw [if_neg h10]
  by_cases h11 : op = OP_OR
  · rw [if_pos h11]; exact hinv
  rw [if_neg h11]
  by_cases h12 : op = OP_GET_LOCAL
  · rw [if_pos h12]
    split
    · exact trivial
    · exact inv_ok_frames hinv hfr { fr with ip := fr.ip + 1 } _ _ _ rfl rfl
  rw [if_neg h12]
  by_cases h13 : op = OP_SET_LOCAL
  · rw [if_pos h13]
    split
    · exact trivial
    · exact inv_ok_frames hinv hfr
        { fr with
            ip := fr.ip + 1,
            locals := fr.locals.set (byteAt proto.chunk.code fr.ip)
              (popV s.stack).1 }
        _ _ _ (by simp [frameShape]) rfl
  rw [if_neg h13]
  by_cases h14 : op = OP_GET_UPVALUE
  · rw [if_pos h14]
    split
    · exact trivial
    · exact inv_ok_frames hinv hfr { fr with ip := fr.ip + 1 } _ _ _ rfl rfl
  rw [if_neg h14]
  by_cases h15 : op = OP_SET_UPVALUE
  · rw [if_pos h15]
    split
    · exact trivial
    · exact uvSet_inv
        (inv_ok_frames hinv hfr { fr with ip := fr.ip + 1 } _ _ _ rfl rfl)
  rw [if_neg h15]
  by_cases h16 : op = OP_GET_GLOBAL
  · rw [if_pos h16]
    split
    · split
      · exact trivial
      · exact inv_ok_frames hinv hfr { fr with ip := fr.ip + 2 } _ _ _ rfl rfl
    · exact trivial
  rw [if_neg h16]
  by_cases h17 : op = OP_SET_GLOBAL
  · rw [if_pos h17]
    split
    · exact inv_ok_frames hinv hfr { fr with ip := fr.ip + 2 } _ _ _ rfl rfl
    · exact trivial
  rw [if_neg h17]
  by_cases h18 : op = OP_DEFINE_GLOBAL
  · rw [if_pos h18]
    split
    · exact inv_ok_frames hinv hfr { fr with ip := fr.ip + 2 } _ _ _ rfl rfl
    · exact trivial
  rw [if_neg h18]
  by_cases h19 : op = OP_ARRAY
  · rw [if_pos h19]
    exact inv_ok_frames hinv hfr { fr with ip := fr.ip + 2 } _ _ _ rfl rfl
  rw [if_neg h19]
  by_cases h20 : op = OP_RANGE
  · rw [if_pos h20]
    split
    · exact trivial
    · split
      · exact trivial
      · exact hinv
  rw [if_neg h20]
  by_cases h21 : op = OP_INDEX_GET
  · rw [if_pos h21]
    split
    · exact trivial
    · exact hinv
  rw [if_neg h21]
  by_cases h22 : op = OP_JUMP
  · rw [if_pos h22]
    exact inv_ok_frames hinv hfr
      { fr with ip := u16At proto.chunk.code fr.ip } _ _ _ rfl rfl
  rw [if_neg h22]
  by_cases h23 : op = OP_JUMP_IF_FALSE
  · rw [if_pos h23]
    split
    · exact inv_ok_frames hinv hfr { fr with ip := fr.ip + 2 } _ _ _ rfl rfl
    · exact inv_ok_frames hinv hfr
        { fr with ip := u16At proto.chunk.code fr.ip } _ _ _ rfl rfl
  rw [if_neg h23]
  by_cases h24 : op = OP_JUMP_IF_TRUE
  · rw [if_pos h24]
    split
    · exact inv_ok_frames hinv hfr
        { fr with ip := u16At proto.chunk.code fr.ip } _ _ _ rfl rfl
    · exact inv_ok_frames hinv hfr { fr with ip := fr.ip + 2 } _ _ _ rfl rfl
  rw [if_neg h24]
  by_cases h25 : op = OP_CALL
  · rw [if_pos h25]
    split
    · exact trivial
    · split
      · split
        · exact trivial
        · next s2 heq =>
            exact call_inv hinv hfr { fr with ip := fr.ip + 1 } rfl rfl _ _ heq _
      · exact trivial
  rw [if_neg h25]
  by_cases h26 : op = OP_RETURN
  · rw [if_pos h26]
    split
    · exact finishFrame_inv _ (by exact hfr) (by exact hinv)
    · exact finishFrame_inv _ (by exact hfr) (by exact hinv)
  rw [if_neg h26]
  by_cases h27 : op = OP_CLOSURE
  · rw [if_pos h27]
    split
    · split
      · exact trivial
      · next ups s2 ip2 heq =>
          have hmid : Inv { s with frames := { fr with ip := fr.ip + 3 } :: rest } :=
            inv_ok_frames hinv hfr { fr with ip := fr.ip + 3 } s.stack s.globals s.instCount rfl rfl
          obtain ⟨hi2, hf2⟩ := closureUps_inv _ _ _ _ _ _ hmid
            (List.mem_cons_self _ _) ups s2 ip2 heq
          have hf3 : s2.frames = { fr with ip := fr.ip + 3 } :: rest := hf2
          refine inv_transport hi2 rfl rfl ?_ ?_ ?_
          · show List.map frameShape ({ fr with ip := ip2 } :: rest)
              = List.map frameShape s2.frames
            rw [hf3]
            rfl
          · show ((({ fr with ip := ip2 } : Frame) :: rest).getLast?).map Frame.base
              = ((s2.frames).getLast?).map Frame.base
            rw [hf3]
            exact lastBase_cons _ _ _ rfl
          · exact List.cons_ne_nil _ _
    · exact trivial
  rw [if_neg h27]
  exact trivial

theorem step_inv {s : VMState} (hinv : Inv s) : InvPost (step s) := by
  rw [step]
  split
  · next heq => exact absurd heq hinv.1
  · next fr0 rest heq =>
      dsimp only
      split
      · exact trivial
      · split
        · exact finishFrame_inv _ (by exact rfl)
            (inv_ok_frames hinv heq { fr0 with lastOp := (fr0.ip : Int) }
              s.stack s.globals s.instCount rfl rfl)
        · split
          · exact trivial
          · exact execOp_inv _ _ _ _ _
              (inv_ok_frames hinv heq
                { fr0 with ip := fr0.ip + 1, lastOp := (fr0.ip : Int) }
                s.stack s.globals (s.instCount + 1) rfl rfl)
              rfl

theorem runLoop_value_empty : ∀ (fuel : Nat) (s : VMState), Inv s →
    ∀ v sf, runLoop fuel s = .value v sf →
    sf.stack = [] ∧ sf.openUpvalues = [] := by
  intro fuel
  induction fuel with
  | zero =>
      intro s hinv v sf h
      rw [runLoop] at h
      exact RunResult.noConfusion h
  | succ n ih =>
      intro s hinv v sf h
      rw [runLoop] at h
      split at h
      · next hemp =>
          exact absurd (List.isEmpty_iff.mp hemp) hinv.1
      · have hp := step_inv hinv
        split at h
        · next s2 heq =>
            rw [heq] at hp
            exact ih s2 hp v sf h
        · next v2 s2 heq =>
            rw [heq] at hp
            injection h with h1 h2
            subst h1
            subst h2
            exact hp
        · exact RunResult.noConfusion h

/-- C4 (amended): a complete invocation that runs to completion
*successfully* leaves the data stack empty and no open upvalues.  (The
original claim also asserted this for runs ending in a runtime error;
that half is refuted separately: the Go `Run` method returns on error
without unwinding, leaving the operand stack as it was at the fault
until the next `Run` resets it.) -/
theorem C4_success_stack_and_upvalues_empty (s0 : VMState) (f : FuncVal)
    (args : List Value) (fuel : Nat) (v : Value) (sf : VMState)
    (h : vmRun s0 f args fuel = .value v sf) :
    sf.stack = [] ∧ sf.openUpvalues = [] := by
  rw [vmRun] at h
  split at h
  · exact RunResult.noConfusion h
  · next s1 heq =>
      have hs1 := pushFrame_ok heq
      have hinv1 : Inv s1 := by
        rw [hs1]
        refine ⟨List.cons_ne_nil _ _, ?_, List.nodup_nil, ?_⟩
        · intro g hg
          have hg2 : some ({ fn := f, ip := 0
                             , locals := List.replicate (maxLocals f) Value.vnull
                             , base := 0, lastOp := -1
                             , uid := s0.nextUid } : Frame)
              = some g := hg
          injection hg2 with hg3
          rw [← hg3]
        · intro id hid
          exact absurd hid (List.not_mem_nil id)
      have hfr1 : s1.frames = ({ fn := f, ip := 0
                                 , locals := List.replicate (maxLocals f) Value.vnull
                                 , base := 0, lastOp := -1
                                 , uid := s0.nextUid } : Frame) :: [] := by
        rw [hs1]
        rfl
      exact runLoop_value_empty fuel _ (setHeadLocals_inv args hfr1 hinv1) v sf h

theorem C4_success_stack_and_upvalues_empty_witness :
    (runState (vmRun vmNew oneFunc [] 10)).stack = [] ∧
    (runState (vmRun vmNew oneFunc [] 10)).openUpvalues = [] :=
  C4_success_stack_and_upvalues_empty vmNew oneFunc [] 10 (Value.vbool true)
    (runState (vmRun vmNew oneFunc [] 10)) (by rfl)

end Flux
